import Mathlib

/-!
Verification of the diff-processing pipeline of a pull-request tool server:
the path matcher (`matchesGlobPattern`, `fileMatchesPatterns`), the diff
segmenter and filter (`filterDiff`) and the per-file truncator
(`truncateDiff`, `truncateFileSection`).

The embedding works over `Line := List Char`: a diff document is a `List Char`
(the raw text), split into lines on the newline character exactly as the
source's `split('\n')` does (`splitNl`), and reassembled with `joinNl`
(`join('\n')`).  JavaScript numbers only occur as integer line counts and
limits, modelled as `Nat`/`Int`; option records model `undefined` fields with
`Option`, and JavaScript truthiness of a numeric option (`undefined` and `0`
are falsy, every other integer truthy) is `jsTruthy`.
-/

/-- A single line of text: the source's strings are lists of characters here. -/
abbrev Line := List Char

/-- Characters of a string literal, used to write concrete lines. -/
def str (s : String) : Line := s.data

/-- Split a text on the newline character: the embedding of
`diffContent.split('\n')`.  Like the JavaScript original it returns at least
one (possibly empty) piece, and the pieces contain no newline. -/
def splitNl : Line → List Line
  | [] => [[]]
  | c :: rest =>
    if c = '\n' then [] :: splitNl rest
    else
      match splitNl rest with
      | [] => [[c]]
      | l :: ls => (c :: l) :: ls

/-- Join lines with the newline character: the embedding of
`result.join('\n')`. -/
def joinNl : List Line → Line
  | [] => []
  | [l] => l
  | l :: ls => l ++ '\n' :: joinNl ls

theorem splitNl_ne_nil (s : Line) : splitNl s ≠ [] := by
  induction s with
  | nil => simp [splitNl]
  | cons c rest ih =>
    simp only [splitNl]
    split
    · simp
    · split <;> simp_all

theorem joinNl_splitNl (s : Line) : joinNl (splitNl s) = s := by
  induction s with
  | nil => rfl
  | cons c rest ih =>
    simp only [splitNl]
    split
    · rename_i h
      subst h
      cases hr : splitNl rest with
      | nil => exact absurd hr (splitNl_ne_nil rest)
      | cons l ls => simp only [joinNl]; rw [hr] at ih; cases ls <;> simp_all [joinNl]
    · cases hr : splitNl rest with
      | nil => exact absurd hr (splitNl_ne_nil rest)
      | cons l ls => rw [hr] at ih; cases ls <;> simp_all [joinNl]

theorem splitNl_no_newline (s : Line) : ∀ l ∈ splitNl s, '\n' ∉ l := by
  induction s with
  | nil => simp [splitNl]
  | cons c rest ih =>
    simp only [splitNl]
    split
    · simpa using ih
    · rename_i hc
      cases hr : splitNl rest with
      | nil => exact absurd hr (splitNl_ne_nil rest)
      | cons l ls =>
        rw [hr] at ih
        intro l2 hl2
        rcases List.mem_cons.mp hl2 with h | h
        · subst h
          simp only [List.mem_cons, not_or]
          exact ⟨fun hq => hc hq.symm, ih l (by simp)⟩
        · exact ih l2 (List.mem_cons_of_mem _ h)

theorem splitNl_of_no_newline (l : Line) (hl : '\n' ∉ l) : splitNl l = [l] := by
  induction l with
  | nil => rfl
  | cons c cs ihc =>
    simp only [List.mem_cons, not_or] at hl
    have hcne : ¬c = '\n' := fun hq => hl.1 hq.symm
    simp only [splitNl, if_neg hcne, ihc hl.2]

theorem splitNl_append_newline (l rest : Line) (hl : '\n' ∉ l) :
    splitNl (l ++ '\n' :: rest) = l :: splitNl rest := by
  induction l with
  | nil =>
    simp [splitNl]
  | cons c cs ihc =>
    simp only [List.mem_cons, not_or] at hl
    have hcne : ¬c = '\n' := fun hq => hl.1 hq.symm
    have ih2 := ihc hl.2
    simp only [List.cons_append, splitNl, if_neg hcne, List.append_eq]
    rw [ih2]

/-- Joining newline-free lines and splitting again is the identity: needed to
read the filter's and truncator's output back as its list of emitted lines. -/
theorem splitNl_joinNl (ls : List Line) (hne : ls ≠ [])
    (hnl : ∀ l ∈ ls, '\n' ∉ l) : splitNl (joinNl ls) = ls := by
  induction ls with
  | nil => exact absurd rfl hne
  | cons l ls ih =>
    cases ls with
    | nil => exact splitNl_of_no_newline l (hnl l (by simp))
    | cons l2 ls2 =>
      have hrest : splitNl (joinNl (l2 :: ls2)) = l2 :: ls2 :=
        ih (by simp) (fun x hx => hnl x (List.mem_cons_of_mem _ hx))
      show splitNl (l ++ '\n' :: joinNl (l2 :: ls2)) = l :: l2 :: ls2
      rw [splitNl_append_newline l _ (hnl l (by simp)), hrest]

/-! ## The path matcher

`matchesGlobPattern` in the source builds a regular expression from the glob
pattern by escaping every regex metacharacter except `*` and `?`, replacing
`**` (left to right) by a placeholder, `*` by `[^/]*`, `?` by `[^/]` and the
placeholder by `.*`, and tests the whole path against it anchored
(`^...$`).  The embedding reads the pattern into the equivalent token list
(`tokenize`: `**` greedily first, then `*`, then `?`, every other character a
literal) and runs the anchored matcher `matchToks` over it; `matchToksF` is
the same matcher with explicit fuel so that it is structurally recursive, and
`ts.length + s.length + 1` fuel is always enough, each step consuming a token
or a character. -/

/-- One token of the translated glob pattern. -/
inductive Tok where
  | lit (c : Char)
  | one
  | star
  | gstar
deriving DecidableEq

/-- Read a glob pattern into tokens: `**` (paired left to right), `*`, `?`,
and literal characters, exactly the substitutions the source performs on the
escaped pattern. -/
def tokenize : Line → List Tok
  | [] => []
  | '*' :: '*' :: rest => .gstar :: tokenize rest
  | '*' :: rest => .star :: tokenize rest
  | '?' :: rest => .one :: tokenize rest
  | c :: rest => .lit c :: tokenize rest

/-- Anchored matcher for the token list, with fuel. `[^/]*` tries the empty
run first or consumes one non-separator character; `.*` likewise without the
separator restriction. -/
def matchToksF : Nat → List Tok → Line → Bool
  | 0, _, _ => false
  | _ + 1, [], s => s.isEmpty
  | _ + 1, .lit _ :: _, [] => false
  | f + 1, .lit c :: ts, d :: s => (c == d) && matchToksF f ts s
  | _ + 1, .one :: _, [] => false
  | f + 1, .one :: ts, d :: s => (d != '/') && matchToksF f ts s
  | f + 1, .star :: ts, s =>
    matchToksF f ts s ||
      (match s with
       | [] => false
       | d :: s2 => (d != '/') && matchToksF f (.star :: ts) s2)
  | f + 1, .gstar :: ts, s =>
    matchToksF f ts s ||
      (match s with
       | [] => false
       | _ :: s2 => matchToksF f (.gstar :: ts) s2)

/-- The anchored matcher with sufficient fuel. -/
def matchToks (ts : List Tok) (s : Line) : Bool :=
  matchToksF (ts.length + s.length + 1) ts s

theorem matchToksF_star (f : Nat) (ts : List Tok) (s : Line) :
    matchToksF (f + 1) (.star :: ts) s =
      (matchToksF f ts s ||
        (match s with
         | [] => false
         | d :: s2 => (d != '/') && matchToksF f (.star :: ts) s2)) := by
  cases s <;> rfl

theorem matchToksF_gstar (f : Nat) (ts : List Tok) (s : Line) :
    matchToksF (f + 1) (.gstar :: ts) s =
      (matchToksF f ts s ||
        (match s with
         | [] => false
         | _ :: s2 => matchToksF f (.gstar :: ts) s2)) := by
  cases s <;> rfl

/-- Declarative semantics of the pattern language, transcribing the spec: a
literal character matches itself, `?` matches exactly one character other
than `/`, `*` matches any run of characters not containing `/`, `**` matches
any run of characters, and the whole path must be consumed (anchoring). -/
def SemMatch : List Tok → Line → Prop
  | [], s => s = []
  | .lit c :: ts, s => ∃ v, s = c :: v ∧ SemMatch ts v
  | .one :: ts, s => ∃ c v, s = c :: v ∧ c ≠ '/' ∧ SemMatch ts v
  | .star :: ts, s => ∃ u v, s = u ++ v ∧ '/' ∉ u ∧ SemMatch ts v
  | .gstar :: ts, s => ∃ u v, s = u ++ v ∧ SemMatch ts v

theorem matchToksF_iff_semMatch : ∀ (f : Nat) (ts : List Tok) (s : Line),
    ts.length + s.length < f → (matchToksF f ts s = true ↔ SemMatch ts s) := by
  intro f
  induction f with
  | zero => intro ts s h; omega
  | succ f ihf =>
    intro ts s hf
    cases ts with
    | nil =>
      simp [matchToksF, SemMatch, List.isEmpty_iff]
    | cons t ts =>
      cases t with
      | lit c =>
        cases s with
        | nil => simp [matchToksF, SemMatch]
        | cons d s2 =>
          simp only [matchToksF, Bool.and_eq_true, beq_iff_eq, SemMatch]
          have ih := ihf ts s2 (by simp at hf ⊢; omega)
          constructor
          · rintro ⟨rfl, h⟩
            exact ⟨s2, rfl, ih.mp h⟩
          · rintro ⟨v, hv, hsem⟩
            cases hv
            exact ⟨rfl, ih.mpr hsem⟩
      | one =>
        cases s with
        | nil => simp [matchToksF, SemMatch]
        | cons d s2 =>
          simp only [matchToksF, Bool.and_eq_true, bne_iff_ne, ne_eq, SemMatch]
          have ih := ihf ts s2 (by simp at hf ⊢; omega)
          constructor
          · rintro ⟨hne, h⟩
            exact ⟨d, s2, rfl, hne, ih.mp h⟩
          · rintro ⟨c, v, hv, hne, hsem⟩
            cases hv
            exact ⟨hne, ih.mpr hsem⟩
      | star =>
        have ih1 := ihf ts s (by simp at hf ⊢; omega)
        rw [show SemMatch (.star :: ts) s = (∃ u v, s = u ++ v ∧ '/' ∉ u ∧ SemMatch ts v) from rfl]
        constructor
        · intro h
          rw [matchToksF_star] at h
          rcases Bool.or_eq_true_iff.mp h with h1 | h2
          · exact ⟨[], s, rfl, by simp, ih1.mp h1⟩
          · cases s with
            | nil => simp at h2
            | cons d s2 =>
              simp only [Bool.and_eq_true, bne_iff_ne, ne_eq] at h2
              obtain ⟨hne, h2⟩ := h2
              have := (ihf (.star :: ts) s2 (by simp at hf ⊢; omega)).mp h2
              rw [show SemMatch (.star :: ts) s2 = (∃ u v, s2 = u ++ v ∧ '/' ∉ u ∧ SemMatch ts v) from rfl] at this
              obtain ⟨u, v, huv, hu, hv⟩ := this
              refine ⟨d :: u, v, by simp [huv], ?_, hv⟩
              simp only [List.mem_cons, not_or]
              exact ⟨fun hq => hne hq.symm, hu⟩
        · rintro ⟨u, v, huv, hu, hv⟩
          rw [matchToksF_star]
          cases u with
          | nil =>
            simp only [List.nil_append] at huv
            subst huv
            exact Bool.or_eq_true_iff.mpr (Or.inl (ih1.mpr hv))
          | cons c u2 =>
            subst huv
            apply Bool.or_eq_true_iff.mpr
            right
            simp only [List.cons_append, Bool.and_eq_true, bne_iff_ne, ne_eq]
            refine ⟨fun hq => by subst hq; exact hu (List.mem_cons_self _ _), ?_⟩
            apply (ihf (.star :: ts) (u2 ++ v) (by simp at hf ⊢; omega)).mpr
            rw [show SemMatch (.star :: ts) (u2 ++ v) = (∃ a b, u2 ++ v = a ++ b ∧ '/' ∉ a ∧ SemMatch ts b) from rfl]
            exact ⟨u2, v, rfl, fun hq => hu (List.mem_cons_of_mem _ hq), hv⟩
      | gstar =>
        have ih1 := ihf ts s (by simp at hf ⊢; omega)
        rw [show SemMatch (.gstar :: ts) s = (∃ u v, s = u ++ v ∧ SemMatch ts v) from rfl]
        constructor
        · intro h
          rw [matchToksF_gstar] at h
          rcases Bool.or_eq_true_iff.mp h with h1 | h2
          · exact ⟨[], s, rfl, ih1.mp h1⟩
          · cases s with
            | nil => simp at h2
            | cons d s2 =>
              have := (ihf (.gstar :: ts) s2 (by simp at hf ⊢; omega)).mp h2
              rw [show SemMatch (.gstar :: ts) s2 = (∃ u v, s2 = u ++ v ∧ SemMatch ts v) from rfl] at this
              obtain ⟨u, v, huv, hv⟩ := this
              exact ⟨d :: u, v, by simp [huv], hv⟩
        · rintro ⟨u, v, huv, hv⟩
          rw [matchToksF_gstar]
          cases u with
          | nil =>
            simp only [List.nil_append] at huv
            subst huv
            exact Bool.or_eq_true_iff.mpr (Or.inl (ih1.mpr hv))
          | cons c u2 =>
            subst huv
            apply Bool.or_eq_true_iff.mpr
            right
            simp only [List.cons_append]
            apply (ihf (.gstar :: ts) (u2 ++ v) (by simp at hf ⊢; omega)).mpr
            rw [show SemMatch (.gstar :: ts) (u2 ++ v) = (∃ a b, u2 ++ v = a ++ b ∧ SemMatch ts b) from rfl]
            exact ⟨u2, v, rfl, hv⟩

theorem matchToks_iff_semMatch (ts : List Tok) (s : Line) :
    matchToks ts s = true ↔ SemMatch ts s :=
  matchToksF_iff_semMatch (ts.length + s.length + 1) ts s (by omega)

/-- The source's `matchesGlobPattern(filePath, pattern)`. -/
def matchesGlobPattern (filePath pat : Line) : Bool := matchToks (tokenize pat) filePath

/-- The source's `fileMatchesPatterns(filePath, includePatterns?, excludePatterns?)`:
reject when any exclude pattern matches; else, when the include list is
present and non-empty, accept exactly when some include pattern matches;
else accept. -/
def fileMatchesPatterns (filePath : Line)
    (includePatterns excludePatterns : Option (List Line)) : Bool :=
  if (excludePatterns.getD []).any (matchesGlobPattern filePath) then false
  else if (includePatterns.getD []).length > 0 then
    (includePatterns.getD []).any (matchesGlobPattern filePath)
  else true

/-! ## The file-name regex

Both pipeline stages extract the post-change path from a header line with the
JavaScript regex `/diff --git a\/(.+) b\/(.+)/` and use capture group 2.  The
embedding reproduces the engine's semantics on the newline-free lines that
`splitNl` produces: the match starts at the leftmost position where the
literal `diff --git a/` can be followed by a non-empty group 1, the literal
` b/` and a non-empty group 2, group 1 backtracks greedily (so ` b/` is taken
at its last viable occurrence), and the final greedy `(.+)` runs to the end
of the line, which is what `jsDiffGitMatch` returns. -/

/-- Every decomposition `xs = before ++ sep ++ after`, ordered by increasing
position of `sep`. -/
def splitsOn (sep : Line) : Line → List (Line × Line)
  | [] => if sep.isEmpty then [([], [])] else []
  | c :: r =>
    (if sep.isPrefixOf (c :: r) then [(([] : Line), (c :: r).drop sep.length)] else [])
      ++ (splitsOn sep r).map (fun p => (c :: p.1, p.2))

theorem isPrefixOf_exists_append {p : Line} :
    ∀ {l : Line}, p.isPrefixOf l = true → ∃ t, p ++ t = l := by
  intro l h
  obtain ⟨t, ht⟩ := List.isPrefixOf_iff_prefix.mp h
  exact ⟨t, ht⟩

theorem splitsOn_sound (sep : Line) :
    ∀ (xs : Line) (p : Line × Line), p ∈ splitsOn sep xs → p.1 ++ sep ++ p.2 = xs := by
  intro xs
  induction xs with
  | nil =>
    intro p hp
    simp only [splitsOn] at hp
    split at hp
    · rename_i hsep
      simp only [List.mem_singleton] at hp
      subst hp
      simp [List.isEmpty_iff.mp hsep]
    · simp at hp
  | cons c r ih =>
    intro p hp
    simp only [splitsOn, List.mem_append] at hp
    rcases hp with hp | hp
    · split at hp
      · rename_i hsep
        simp only [List.mem_singleton] at hp
        subst hp
        obtain ⟨t, ht⟩ := isPrefixOf_exists_append hsep
        simp only [List.nil_append]
        rw [← ht]
        simp [List.drop_left]
      · simp at hp
    · simp only [List.mem_map] at hp
      obtain ⟨q, hq, hqe⟩ := hp
      subst hqe
      have := ih q hq
      simp only [List.cons_append, List.append_assoc] at this ⊢
      rw [this]

/-- Capture group 2 of `line.match(/diff --git a\/(.+) b\/(.+)/)`, when the
regex matches the (newline-free) line. -/
def jsDiffGitMatch (l : Line) : Option Line :=
  (splitsOn (str "diff --git a/") l).findSome? fun pr =>
    ((((splitsOn (str " b/") pr.2).filter
        fun uv => !uv.1.isEmpty && !uv.2.isEmpty).getLast?).map Prod.snd)

theorem findSome?_eq_some_ex {α β : Type} (f : α → Option β) :
    ∀ (l : List α) (b : β), l.findSome? f = some b → ∃ a, a ∈ l ∧ f a = some b := by
  intro l
  induction l with
  | nil => intro b h; simp [List.findSome?_nil] at h
  | cons x xs ih =>
    intro b h
    rw [List.findSome?_cons] at h
    cases hfx : f x with
    | some c => rw [hfx] at h; exact ⟨x, by simp, by rw [hfx]; exact h⟩
    | none =>
      rw [hfx] at h
      obtain ⟨a, ha, hfa⟩ := ih b h
      exact ⟨a, List.mem_cons_of_mem _ ha, hfa⟩

theorem mem_of_getLast?_eq_some {α : Type} {l : List α} {a : α}
    (h : l.getLast? = some a) : a ∈ l := by
  obtain ⟨hne, rfl⟩ := List.mem_getLast?_eq_getLast (show a ∈ l.getLast? from h)
  exact List.getLast_mem hne

/-- A successful header match returns a suffix of the line (in particular its
characters are characters of the line). -/
theorem jsDiffGitMatch_suffix (l v : Line) (h : jsDiffGitMatch l = some v) :
    ∃ w, w ++ v = l := by
  unfold jsDiffGitMatch at h
  obtain ⟨pr, hmem, hpr⟩ := findSome?_eq_some_ex _ _ _ h
  cases hlast : ((splitsOn (str " b/") pr.2).filter
      fun uv => !uv.1.isEmpty && !uv.2.isEmpty).getLast? with
  | none => rw [hlast] at hpr; simp at hpr
  | some uv =>
    rw [hlast] at hpr
    simp only [Option.map_some'] at hpr
    have h1 := splitsOn_sound (str "diff --git a/") l pr hmem
    have h2 := splitsOn_sound (str " b/") pr.2 uv
      (List.mem_of_mem_filter (mem_of_getLast?_eq_some hlast))
    obtain rfl : uv.2 = v := by simpa using hpr
    refine ⟨pr.1 ++ str "diff --git a/" ++ uv.1 ++ str " b/", ?_⟩
    rw [← h1, ← h2]
    simp [List.append_assoc]

/-! ## Printing numbers

The annotation blocks interpolate counts and limits into template strings
(`${truncatedCount}`); all interpolated numbers are integers, printed in
decimal, negatives with a leading minus sign. -/

/-- The decimal digit characters. -/
def digitChar (d : Nat) : Char :=
  if d = 0 then '0' else if d = 1 then '1' else if d = 2 then '2'
  else if d = 3 then '3' else if d = 4 then '4' else if d = 5 then '5'
  else if d = 6 then '6' else if d = 7 then '7' else if d = 8 then '8' else '9'

/-- Decimal digits of a natural number, most significant first, with fuel to
keep the recursion structural. -/
def natToLineF : Nat → Nat → Line → Line
  | 0, _, acc => acc
  | f + 1, n, acc =>
    if n < 10 then digitChar n :: acc
    else natToLineF f (n / 10) (digitChar (n % 10) :: acc)

/-- Decimal rendering of a natural number (`n + 1` fuel always suffices). -/
def natToLine (n : Nat) : Line := natToLineF (n + 1) n []

/-- Decimal rendering of an integer, as JavaScript string interpolation
prints it. -/
def intToLine (n : Int) : Line :=
  if n < 0 then '-' :: natToLine (-n).toNat else natToLine n.toNat

theorem digitChar_mem (d : Nat) : digitChar d ∈ str "0123456789" := by
  unfold digitChar
  repeat' split
  all_goals decide

theorem natToLineF_subset (f : Nat) :
    ∀ (n : Nat) (acc : Line) (c : Char), c ∈ natToLineF f n acc →
      c ∈ str "0123456789" ∨ c ∈ acc := by
  induction f with
  | zero => intro n acc c hc; exact Or.inr hc
  | succ f ihf =>
    intro n acc c hc
    simp only [natToLineF] at hc
    split at hc
    · rcases List.mem_cons.mp hc with h | h
      · exact Or.inl (h ▸ digitChar_mem n)
      · exact Or.inr h
    · rcases ihf (n / 10) _ c hc with h | h
      · exact Or.inl h
      · rcases List.mem_cons.mp h with h2 | h2
        · exact Or.inl (h2 ▸ digitChar_mem (n % 10))
        · exact Or.inr h2

theorem natToLine_no_newline (n : Nat) : '\n' ∉ natToLine n := by
  intro h
  rcases natToLineF_subset (n + 1) n [] '\n' h with h2 | h2
  · simp [str] at h2
  · simp at h2

theorem intToLine_no_newline (n : Int) : '\n' ∉ intToLine n := by
  unfold intToLine
  split
  · simp only [List.mem_cons, not_or]
    exact ⟨by decide, natToLine_no_newline _⟩
  · exact natToLine_no_newline _

/-! ## The per-file truncator -/

/-- Whether a line is a hunk header (`line.startsWith('@@')`). -/
def isHunkHeader (l : Line) : Bool := (str "@@").isPrefixOf l

/-- Whether a line opens a new file segment (`line.startsWith('diff --git ')`). -/
def isDiffGitLine (l : Line) : Bool := (str "diff --git ").isPrefixOf l

/-- JavaScript's `xs.slice(-n)` for a non-negative count: `slice(-0)` is
`slice(0)`, the whole array; otherwise the last `n` elements. -/
def jsSliceLast (xs : List Line) (n : Nat) : List Line :=
  if n = 0 then xs else xs.drop (xs.length - n)

/-- First line of the truncation marker block. -/
def truncMsgHidden (truncatedCount : Nat) (fileName : Line) : Line :=
  str "[*** FILE TRUNCATED: " ++ natToLine truncatedCount
    ++ str " lines hidden from " ++ fileName ++ str " ***]"

/-- Second line of the truncation marker block. -/
def truncMsgTotals (total showAtStart showAtEnd : Nat) : Line :=
  str "[*** File had " ++ natToLine total ++ str " total lines, showing first "
    ++ natToLine showAtStart ++ str " and last " ++ natToLine showAtEnd ++ str " ***]"

/-- Third line of the truncation marker block. -/
def truncMsgHint : Line := str "[*** Use maxLinesPerFile=0 to see complete diff ***]"

/-- The source's `truncateFileSection(fileLines, fileName, maxLines)`.  The
head and tail window sizes are `Math.floor(maxLines * 0.6)` and
`Math.floor(maxLines * 0.4)`; on the integer budgets involved the double
arithmetic is exact enough that these equal `3 * maxLines / 5` and
`2 * maxLines / 5` in integer division.  The tail window is
`contentLines.slice(-showAtEnd)` with JavaScript semantics (`jsSliceLast`). -/
def truncateFileSection (fileLines : List Line) (fileName : Line) (maxLines : Nat) :
    List Line :=
  if fileLines.length ≤ maxLines then fileLines
  else
    let contentLines := fileLines.filter fun l => !isHunkHeader l
    let hunkHeaders := fileLines.filter fun l => isHunkHeader l
    if contentLines.length ≤ maxLines then fileLines
    else
      let showAtStart := 3 * maxLines / 5
      let showAtEnd := 2 * maxLines / 5
      let truncatedCount := contentLines.length - showAtStart - showAtEnd
      hunkHeaders ++ contentLines.take showAtStart
        ++ [[]]
        ++ [truncMsgHidden truncatedCount fileName,
            truncMsgTotals contentLines.length showAtStart showAtEnd,
            truncMsgHint]
        ++ [[]]
        ++ jsSliceLast contentLines showAtEnd

/-- Loop state of `truncateDiff`: the emitted lines, the buffered hunk lines
of the current file, the current file's name and the `inFileContent` flag. -/
structure TruncState where
  result : List Line
  currentFileLines : List Line
  currentFileName : Line
  inFileContent : Bool
deriving DecidableEq

/-- One iteration of `truncateDiff`'s loop over the document's lines. -/
def truncStep (maxLines : Nat) (st : TruncState) (line : Line) : TruncState :=
  if isDiffGitLine line then
    let flushed :=
      if st.currentFileLines.length > 0 then
        st.result ++ truncateFileSection st.currentFileLines st.currentFileName maxLines
      else st.result
    { result := flushed ++ [line],
      currentFileLines := [],
      currentFileName := (jsDiffGitMatch line).getD (str "unknown"),
      inFileContent := false }
  else if (str "index ").isPrefixOf line || (str "+++").isPrefixOf line
      || (str "---").isPrefixOf line then
    { st with result := st.result ++ [line] }
  else if isHunkHeader line then
    { st with inFileContent := true, currentFileLines := st.currentFileLines ++ [line] }
  else if st.inFileContent then
    { st with currentFileLines := st.currentFileLines ++ [line] }
  else
    { st with result := st.result ++ [line] }

/-- The source's `truncateDiff(diffContent, maxLinesPerFile)`: a no-op for a
falsy or non-positive budget, otherwise the line loop with a final flush of
the buffered file. -/
def truncateDiff (diffContent : Line) (maxLinesPerFile : Int) : Line :=
  if maxLinesPerFile ≤ 0 then diffContent
  else
    let m := maxLinesPerFile.toNat
    let st := (splitNl diffContent).foldl (truncStep m) ⟨[], [], [], false⟩
    joinNl
      (if st.currentFileLines.length > 0 then
        st.result ++ truncateFileSection st.currentFileLines st.currentFileName m
      else st.result)

/-! ## The diff segmenter and filter -/

/-- JavaScript truthiness of an optional numeric option: `undefined` and `0`
are falsy. -/
def jsTruthy : Option Int → Bool
  | none => false
  | some n => n != 0

/-- Truthiness of `paths?.length` for an optional pattern list. -/
def jsTruthyLen : Option (List Line) → Bool
  | none => false
  | some ps => ps.length != 0

/-- The filter options record (`DiffFilterOptions` in the source); a `none`
field is an absent (`undefined`) option. -/
structure DiffFilterOptions where
  includePaths : Option (List Line) := none
  excludePaths : Option (List Line) := none
  maxFiles : Option Int := none
  maxTotalLines : Option Int := none

/-- The statistics record `filterDiff` returns. -/
structure DiffStats where
  includedFiles : Nat
  excludedFiles : Nat
  totalLines : Nat
deriving DecidableEq

/-- Loop state of `filterDiff`: emitted lines, the buffered segment, its file
name, the three counters and the two sticky cutoff flags. -/
structure FilterState where
  result : List Line
  currentFileLines : List Line
  currentFileName : Line
  includedFiles : Nat
  excludedFiles : Nat
  totalLines : Nat
  reachedMaxFiles : Bool
  reachedMaxLines : Bool
deriving DecidableEq

/-- The initial `FilterState`. -/
def initFilterState : FilterState := ⟨[], [], [], 0, 0, 0, false, false⟩

/-- The source's `flushCurrentFile` closure: evaluate the buffered segment,
include it or count it excluded, with the sticky `maxFiles`/`maxTotalLines`
cutoffs. -/
def flushCurrentFile (opts : DiffFilterOptions) (st : FilterState) : FilterState :=
  if st.currentFileLines.length = 0 then st
  else
    let shouldInclude :=
      fileMatchesPatterns st.currentFileName opts.includePaths opts.excludePaths
    let st :=
      if shouldInclude && !st.reachedMaxFiles && !st.reachedMaxLines then
        if jsTruthy opts.maxFiles
            && decide ((st.includedFiles : Int) ≥ opts.maxFiles.getD 0) then
          { st with reachedMaxFiles := true, excludedFiles := st.excludedFiles + 1 }
        else if jsTruthy opts.maxTotalLines
            && decide (((st.totalLines + st.currentFileLines.length : Nat) : Int)
                > opts.maxTotalLines.getD 0) then
          { st with reachedMaxLines := true, excludedFiles := st.excludedFiles + 1 }
        else
          { st with result := st.result ++ st.currentFileLines,
                    includedFiles := st.includedFiles + 1,
                    totalLines := st.totalLines + st.currentFileLines.length }
      else
        { st with excludedFiles := st.excludedFiles + 1 }
    { st with currentFileLines := [] }

/-- One iteration of `filterDiff`'s loop over the document's lines: a
`diff --git ` line flushes the previous segment and starts a new one (file
name from the header regex, `''` when it does not match); other lines join
the current segment when the current file name is truthy (non-empty), and go
straight to the output otherwise. -/
def filterStep (opts : DiffFilterOptions) (st : FilterState) (line : Line) : FilterState :=
  if isDiffGitLine line then
    let st := flushCurrentFile opts st
    { st with currentFileName := (jsDiffGitMatch line).getD [],
              currentFileLines := [line] }
  else if st.currentFileName.length != 0 then
    { st with currentFileLines := st.currentFileLines ++ [line] }
  else
    { st with result := st.result ++ [line] }

/-- The trailing summary block `filterDiff` appends when files were excluded. -/
def summaryBlock (opts : DiffFilterOptions) (st : FilterState) : List Line :=
  [[], str "[*** DIFF FILTERED: " ++ natToLine st.excludedFiles ++ str " files excluded ***]"]
    ++ (if st.reachedMaxFiles then
          [str "[*** Reached maxFiles limit of " ++ intToLine (opts.maxFiles.getD 0)
            ++ str " ***]"]
        else [])
    ++ (if st.reachedMaxLines then
          [str "[*** Reached maxTotalLines limit of " ++ intToLine (opts.maxTotalLines.getD 0)
            ++ str " ***]"]
        else [])
    ++ [str "[*** Showing " ++ natToLine st.includedFiles ++ str " files, "
          ++ natToLine st.totalLines ++ str " lines ***]"]

/-- The source's `filterDiff(diffContent, filterOptions)`: the fast path when
no option is set, otherwise the segment loop, the final flush and the summary
block when anything was excluded.  Returns the filtered text and the
statistics record. -/
def filterDiff (diffContent : Line) (opts : DiffFilterOptions) : Line × DiffStats :=
  if !jsTruthyLen opts.includePaths && !jsTruthyLen opts.excludePaths
      && !jsTruthy opts.maxFiles && !jsTruthy opts.maxTotalLines then
    (diffContent, ⟨0, 0, (splitNl diffContent).length⟩)
  else
    let st := (splitNl diffContent).foldl (filterStep opts) initFilterState
    let st := flushCurrentFile opts st
    let res := if st.excludedFiles > 0 then st.result ++ summaryBlock opts st else st.result
    (joinNl res, ⟨st.includedFiles, st.excludedFiles, st.totalLines⟩)

/-! ## Segment decomposition of the filter loop

The loop of `filterDiff` buffers one file segment at a time.  For a document
that splits into a preamble (no `diff --git ` lines) followed by well-formed
segments (a `diff --git ` header whose regex match yields a non-empty name,
then non-header lines), the whole loop is a fold of `flushSegApply` over the
segments, which the lemmas below establish and then analyse per claim. -/

/-- A well-formed file segment: a header line followed by non-header lines. -/
def segWF (seg : List Line) : Bool :=
  match seg with
  | [] => false
  | h :: t => isDiffGitLine h && t.all fun l => !isDiffGitLine l

/-- The file name the filter assigns to a segment (capture group 2 of the
header regex, `''` when the regex does not match). -/
def segName (seg : List Line) : Line :=
  match seg with
  | [] => []
  | h :: _ => (jsDiffGitMatch h).getD []

/-- Flushing a whole buffered segment: what one completed segment contributes
to the filter state. -/
def flushSegApply (opts : DiffFilterOptions) (acc : FilterState) (seg : List Line) :
    FilterState :=
  flushCurrentFile opts { acc with currentFileName := segName seg, currentFileLines := seg }

theorem flushCurrentFile_empty (opts : DiffFilterOptions) (st : FilterState)
    (h : st.currentFileLines = []) : flushCurrentFile opts st = st := by
  unfold flushCurrentFile
  rw [if_pos (by simp [h])]

theorem filterStep_content (opts : DiffFilterOptions) (st : FilterState) (line : Line)
    (hl : isDiffGitLine line = false) (hn : st.currentFileName ≠ []) :
    filterStep opts st line = { st with currentFileLines := st.currentFileLines ++ [line] } := by
  unfold filterStep
  rw [if_neg (by simp [hl]), if_pos]
  simp only [bne_iff_ne, ne_eq, List.length_eq_zero]
  exact hn

theorem foldl_filterStep_content (opts : DiffFilterOptions) :
    ∀ (t : List Line) (st : FilterState),
    (∀ l ∈ t, isDiffGitLine l = false) → st.currentFileName ≠ [] →
    t.foldl (filterStep opts) st = { st with currentFileLines := st.currentFileLines ++ t } := by
  intro t
  induction t with
  | nil => intro st _ _; simp
  | cons l t ih =>
    intro st ht hn
    have hrec := ih { st with currentFileLines := st.currentFileLines ++ [l] }
      (fun x hx => ht x (List.mem_cons_of_mem _ hx)) hn
    rw [List.foldl_cons, filterStep_content opts st l (ht l (by simp)) hn, hrec]
    simp

theorem foldl_filterStep_seg (opts : DiffFilterOptions) (seg : List Line) (st : FilterState)
    (hwf : segWF seg = true) (hn : segName seg ≠ []) :
    seg.foldl (filterStep opts) st =
      { flushCurrentFile opts st with
          currentFileName := segName seg, currentFileLines := seg } := by
  cases seg with
  | nil => simp [segWF] at hwf
  | cons h t =>
    simp only [segWF, Bool.and_eq_true, List.all_eq_true, Bool.not_eq_true'] at hwf
    rw [List.foldl_cons]
    have hstep : filterStep opts st h =
        { flushCurrentFile opts st with
            currentFileName := (jsDiffGitMatch h).getD [], currentFileLines := [h] } := by
      unfold filterStep
      rw [if_pos hwf.1]
    rw [hstep]
    rw [foldl_filterStep_content opts t _ hwf.2 (by simpa [segName] using hn)]
    simp [segName]

theorem foldl_filterStep_segsJoin (opts : DiffFilterOptions) :
    ∀ (segs : List (List Line)) (st : FilterState),
    (∀ seg ∈ segs, segWF seg = true ∧ segName seg ≠ []) →
    flushCurrentFile opts (segs.flatten.foldl (filterStep opts) st) =
      segs.foldl (flushSegApply opts) (flushCurrentFile opts st) := by
  intro segs
  induction segs with
  | nil => intro st _; simp
  | cons seg rest ih =>
    intro st hsegs
    have hseg := hsegs seg (by simp)
    have hrec := ih { flushCurrentFile opts st with
        currentFileName := segName seg, currentFileLines := seg }
      (fun s hs => hsegs s (List.mem_cons_of_mem _ hs))
    rw [List.flatten_cons, List.foldl_append,
      foldl_filterStep_seg opts seg st hseg.1 hseg.2, hrec]
    rfl

theorem foldl_filterStep_preamble (opts : DiffFilterOptions) :
    ∀ (pre : List Line) (st : FilterState),
    (∀ l ∈ pre, isDiffGitLine l = false) → st.currentFileName = [] →
    pre.foldl (filterStep opts) st = { st with result := st.result ++ pre } := by
  intro pre
  induction pre with
  | nil => intro st _ _; simp
  | cons l t ih =>
    intro st ht hn
    have hstep : filterStep opts st l = { st with result := st.result ++ [l] } := by
      unfold filterStep
      rw [if_neg (by simp [ht l (by simp)]), if_neg (by simp [hn])]
    have hrec := ih { st with result := st.result ++ [l] }
      (fun x hx => ht x (List.mem_cons_of_mem _ hx)) hn
    rw [List.foldl_cons, hstep, hrec]
    simp

/-- The filter state the segment fold reaches on a preamble and a segment
list. -/
def filterFoldState (opts : DiffFilterOptions) (pre : List Line)
    (segs : List (List Line)) : FilterState :=
  segs.foldl (flushSegApply opts) { initFilterState with result := pre }

/-- Reassembly of `filterDiff`'s return value from a final filter state. -/
def assembleFilter (opts : DiffFilterOptions) (fin : FilterState) : Line × DiffStats :=
  (joinNl (if fin.excludedFiles > 0 then fin.result ++ summaryBlock opts fin else fin.result),
   ⟨fin.includedFiles, fin.excludedFiles, fin.totalLines⟩)

/-- Assembly: on a document made of a preamble and well-formed segments, the
filter is the segment fold. -/
theorem filterDiff_segments (d : Line) (opts : DiffFilterOptions)
    (pre : List Line) (segs : List (List Line))
    (hsplit : splitNl d = pre ++ segs.flatten)
    (hpre : ∀ l ∈ pre, isDiffGitLine l = false)
    (hsegs : ∀ seg ∈ segs, segWF seg = true ∧ segName seg ≠ [])
    (hset : (!jsTruthyLen opts.includePaths && !jsTruthyLen opts.excludePaths
      && !jsTruthy opts.maxFiles && !jsTruthy opts.maxTotalLines) = false) :
    filterDiff d opts = assembleFilter opts (filterFoldState opts pre segs) := by
  unfold filterDiff
  rw [if_neg (by simp [hset])]
  simp only [hsplit, List.foldl_append]
  rw [foldl_filterStep_preamble opts pre initFilterState hpre rfl]
  have hjoin := foldl_filterStep_segsJoin opts segs
    { initFilterState with result := initFilterState.result ++ pre } hsegs
  have h0 : flushCurrentFile opts { initFilterState with result := initFilterState.result ++ pre }
      = { initFilterState with result := initFilterState.result ++ pre } :=
    flushCurrentFile_empty opts _ rfl
  rw [h0] at hjoin
  rw [hjoin]
  unfold assembleFilter filterFoldState
  simp [initFilterState]

theorem flushSegApply_include (opts : DiffFilterOptions) (acc : FilterState) (seg : List Line)
    (hne : seg ≠ [])
    (hkeep : fileMatchesPatterns (segName seg) opts.includePaths opts.excludePaths = true)
    (hrmf : acc.reachedMaxFiles = false) (hrml : acc.reachedMaxLines = false)
    (hmf : jsTruthy opts.maxFiles = true → (acc.includedFiles : Int) < opts.maxFiles.getD 0)
    (hml : jsTruthy opts.maxTotalLines = true →
      ((acc.totalLines + seg.length : Nat) : Int) ≤ opts.maxTotalLines.getD 0) :
    flushSegApply opts acc seg =
      { acc with result := acc.result ++ seg,
                 includedFiles := acc.includedFiles + 1,
                 totalLines := acc.totalLines + seg.length,
                 currentFileLines := [],
                 currentFileName := segName seg } := by
  have hc1 : (jsTruthy opts.maxFiles
      && decide ((acc.includedFiles : Int) ≥ opts.maxFiles.getD 0)) = false := by
    cases hj : jsTruthy opts.maxFiles with
    | false => simp
    | true =>
      simp only [Bool.true_and, decide_eq_false_iff_not]
      exact not_le.mpr (hmf hj)
  have hc2 : (jsTruthy opts.maxTotalLines
      && decide (((acc.totalLines + seg.length : Nat) : Int) > opts.maxTotalLines.getD 0)) = false := by
    cases hj : jsTruthy opts.maxTotalLines with
    | false => simp
    | true =>
      simp only [Bool.true_and, decide_eq_false_iff_not]
      exact not_lt.mpr (hml hj)
  simp only [flushSegApply, flushCurrentFile, hkeep, hrmf, hrml, Bool.not_false,
    Bool.and_self, Bool.and_true, Bool.true_and, if_true, List.length_eq_zero,
    hne, if_false, hc1, hc2, Bool.false_eq_true]

theorem flushSegApply_hitMaxFiles (opts : DiffFilterOptions) (acc : FilterState)
    (seg : List Line) (hne : seg ≠ [])
    (hkeep : fileMatchesPatterns (segName seg) opts.includePaths opts.excludePaths = true)
    (hrmf : acc.reachedMaxFiles = false) (hrml : acc.reachedMaxLines = false)
    (hmf : jsTruthy opts.maxFiles = true)
    (hge : (acc.includedFiles : Int) ≥ opts.maxFiles.getD 0) :
    flushSegApply opts acc seg =
      { acc with reachedMaxFiles := true,
                 excludedFiles := acc.excludedFiles + 1,
                 currentFileLines := [],
                 currentFileName := segName seg } := by
  have hc1 : (jsTruthy opts.maxFiles
      && decide ((acc.includedFiles : Int) ≥ opts.maxFiles.getD 0)) = true := by
    simp only [hmf, Bool.true_and, decide_eq_true_eq]
    exact hge
  simp only [flushSegApply, flushCurrentFile, hkeep, hrmf, hrml, Bool.not_false,
    Bool.and_self, Bool.and_true, Bool.true_and, if_true, List.length_eq_zero,
    hne, if_false, hc1, Bool.false_eq_true]

theorem flushSegApply_hitMaxLines (opts : DiffFilterOptions) (acc : FilterState)
    (seg : List Line) (hne : seg ≠ [])
    (hkeep : fileMatchesPatterns (segName seg) opts.includePaths opts.excludePaths = true)
    (hrmf : acc.reachedMaxFiles = false) (hrml : acc.reachedMaxLines = false)
    (hmf : jsTruthy opts.maxFiles = true → (acc.includedFiles : Int) < opts.maxFiles.getD 0)
    (hml : jsTruthy opts.maxTotalLines = true)
    (hgt : ((acc.totalLines + seg.length : Nat) : Int) > opts.maxTotalLines.getD 0) :
    flushSegApply opts acc seg =
      { acc with reachedMaxLines := true,
                 excludedFiles := acc.excludedFiles + 1,
                 currentFileLines := [],
                 currentFileName := segName seg } := by
  have hc1 : (jsTruthy opts.maxFiles
      && decide ((acc.includedFiles : Int) ≥ opts.maxFiles.getD 0)) = false := by
    cases hj : jsTruthy opts.maxFiles with
    | false => simp
    | true =>
      simp only [Bool.true_and, decide_eq_false_iff_not]
      exact not_le.mpr (hmf hj)
  have hc2 : (jsTruthy opts.maxTotalLines
      && decide (((acc.totalLines + seg.length : Nat) : Int) > opts.maxTotalLines.getD 0)) = true := by
    simp only [hml, Bool.true_and, decide_eq_true_eq]
    exact hgt
  simp only [flushSegApply, flushCurrentFile, hkeep, hrmf, hrml, Bool.not_false,
    Bool.and_self, Bool.and_true, Bool.true_and, if_true, List.length_eq_zero,
    hne, if_false, hc1, hc2, Bool.false_eq_true]

theorem flushSegApply_excluded (opts : DiffFilterOptions) (acc : FilterState)
    (seg : List Line) (hne : seg ≠ [])
    (h : (fileMatchesPatterns (segName seg) opts.includePaths opts.excludePaths
        && !acc.reachedMaxFiles && !acc.reachedMaxLines) = false) :
    flushSegApply opts acc seg =
      { acc with excludedFiles := acc.excludedFiles + 1,
                 currentFileLines := [],
                 currentFileName := segName seg } := by
  simp only [flushSegApply, flushCurrentFile, List.length_eq_zero, hne, if_false, h,
    Bool.false_eq_true]

theorem foldSegs_all_included (opts : DiffFilterOptions) :
    ∀ (segs : List (List Line)) (acc : FilterState),
    (∀ seg ∈ segs, seg ≠ [] ∧
      fileMatchesPatterns (segName seg) opts.includePaths opts.excludePaths = true) →
    acc.reachedMaxFiles = false → acc.reachedMaxLines = false →
    (jsTruthy opts.maxFiles = true →
      ((acc.includedFiles + segs.length : Nat) : Int) ≤ opts.maxFiles.getD 0) →
    (jsTruthy opts.maxTotalLines = true →
      ((acc.totalLines + (segs.map List.length).sum : Nat) : Int) ≤ opts.maxTotalLines.getD 0) →
    (segs.foldl (flushSegApply opts) acc).result = acc.result ++ segs.flatten
      ∧ (segs.foldl (flushSegApply opts) acc).includedFiles = acc.includedFiles + segs.length
      ∧ (segs.foldl (flushSegApply opts) acc).excludedFiles = acc.excludedFiles
      ∧ (segs.foldl (flushSegApply opts) acc).totalLines
          = acc.totalLines + (segs.map List.length).sum
      ∧ (segs.foldl (flushSegApply opts) acc).reachedMaxFiles = false
      ∧ (segs.foldl (flushSegApply opts) acc).reachedMaxLines = false := by
  intro segs
  induction segs with
  | nil => intro acc _ hrmf hrml _ _; simp [hrmf, hrml]
  | cons seg rest ih =>
    intro acc hsegs hrmf hrml hmf hml
    have hseg := hsegs seg (by simp)
    have hmfs : jsTruthy opts.maxFiles = true →
        ((acc.includedFiles + (seg :: rest).length : Nat) : Int) ≤ opts.maxFiles.getD 0 := hmf
    have hstep := flushSegApply_include opts acc seg hseg.1 hseg.2 hrmf hrml
      (fun ht => by have := hmf ht; simp only [List.length_cons] at this; omega)
      (fun ht => by
        have := hml ht
        simp only [List.map_cons, List.sum_cons] at this
        omega)
    rw [List.foldl_cons, hstep]
    have hrec := ih { acc with
        result := acc.result ++ seg,
        includedFiles := acc.includedFiles + 1,
        totalLines := acc.totalLines + seg.length,
        currentFileLines := [],
        currentFileName := segName seg }
      (fun s hs => hsegs s (List.mem_cons_of_mem _ hs)) hrmf hrml
      (fun ht => by have := hmf ht; simp only [List.length_cons] at this; simp only []; omega)
      (fun ht => by
        have := hml ht
        simp only [List.map_cons, List.sum_cons] at this
        simp only []
        omega)
    obtain ⟨h1, h2, h3, h4, h5, h6⟩ := hrec
    refine ⟨?_, ?_, ?_, ?_, h5, h6⟩
    · rw [h1]; simp [List.flatten_cons, List.append_assoc]
    · rw [h2]; simp only [List.length_cons]; omega
    · rw [h3]
    · rw [h4]; simp only [List.map_cons, List.sum_cons]; omega

theorem foldSegs_neg_maxFiles (opts : DiffFilterOptions) (n : Int)
    (hopt : opts.maxFiles = some n) (hneg : n < 0) :
    ∀ (segs : List (List Line)) (acc : FilterState),
    (∀ seg ∈ segs, seg ≠ []) →
    (segs.foldl (flushSegApply opts) acc).includedFiles = acc.includedFiles
      ∧ (segs.foldl (flushSegApply opts) acc).excludedFiles = acc.excludedFiles + segs.length
      ∧ (segs.foldl (flushSegApply opts) acc).totalLines = acc.totalLines
      ∧ (segs.foldl (flushSegApply opts) acc).result = acc.result := by
  intro segs
  induction segs with
  | nil => intro acc _; simp
  | cons seg rest ih =>
    intro acc hsegs
    have hne := hsegs seg (by simp)
    have htr : jsTruthy opts.maxFiles = true := by
      simp [jsTruthy, hopt]
      omega
    have hge : (acc.includedFiles : Int) ≥ opts.maxFiles.getD 0 := by
      simp [hopt]
      omega
    by_cases hcond : (fileMatchesPatterns (segName seg) opts.includePaths opts.excludePaths
        && !acc.reachedMaxFiles && !acc.reachedMaxLines) = true
    · simp only [Bool.and_eq_true, Bool.not_eq_true'] at hcond
      have hstep := flushSegApply_hitMaxFiles opts acc seg hne hcond.1.1 hcond.1.2 hcond.2
        htr hge
      rw [List.foldl_cons, hstep]
      have hrec := ih { acc with
          reachedMaxFiles := true,
          excludedFiles := acc.excludedFiles + 1,
          currentFileLines := [],
          currentFileName := segName seg }
        (fun s hs => hsegs s (List.mem_cons_of_mem _ hs))
      obtain ⟨h1, h2, h3, h4⟩ := hrec
      refine ⟨h1, ?_, h3, h4⟩
      rw [h2]
      simp only [List.length_cons]
      omega
    · have hstep := flushSegApply_excluded opts acc seg hne
        (Bool.not_eq_true _ ▸ Bool.of_not_eq_true hcond)
      rw [List.foldl_cons, hstep]
      have hrec := ih { acc with
          excludedFiles := acc.excludedFiles + 1,
          currentFileLines := [],
          currentFileName := segName seg }
        (fun s hs => hsegs s (List.mem_cons_of_mem _ hs))
      obtain ⟨h1, h2, h3, h4⟩ := hrec
      refine ⟨h1, ?_, h3, h4⟩
      rw [h2]
      simp only [List.length_cons]
      omega

theorem foldSegs_neg_maxTotalLines (opts : DiffFilterOptions) (n : Int)
    (hmfnone : opts.maxFiles = none) (hopt : opts.maxTotalLines = some n) (hneg : n < 0) :
    ∀ (segs : List (List Line)) (acc : FilterState),
    (∀ seg ∈ segs, seg ≠ []) →
    (segs.foldl (flushSegApply opts) acc).includedFiles = acc.includedFiles
      ∧ (segs.foldl (flushSegApply opts) acc).excludedFiles = acc.excludedFiles + segs.length
      ∧ (segs.foldl (flushSegApply opts) acc).totalLines = acc.totalLines
      ∧ (segs.foldl (flushSegApply opts) acc).result = acc.result := by
  intro segs
  induction segs with
  | nil => intro acc _; simp
  | cons seg rest ih =>
    intro acc hsegs
    have hne := hsegs seg (by simp)
    have htr : jsTruthy opts.maxTotalLines = true := by
      simp [jsTruthy, hopt]
      omega
    have hgt : ((acc.totalLines + seg.length : Nat) : Int) > opts.maxTotalLines.getD 0 := by
      simp [hopt]
      omega
    by_cases hcond : (fileMatchesPatterns (segName seg) opts.includePaths opts.excludePaths
        && !acc.reachedMaxFiles && !acc.reachedMaxLines) = true
    · simp only [Bool.and_eq_true, Bool.not_eq_true'] at hcond
      have hstep := flushSegApply_hitMaxLines opts acc seg hne hcond.1.1 hcond.1.2 hcond.2
        (fun ht => by rw [hmfnone] at ht; simp [jsTruthy] at ht) htr hgt
      rw [List.foldl_cons, hstep]
      have hrec := ih { acc with
          reachedMaxLines := true,
          excludedFiles := acc.excludedFiles + 1,
          currentFileLines := [],
          currentFileName := segName seg }
        (fun s hs => hsegs s (List.mem_cons_of_mem _ hs))
      obtain ⟨h1, h2, h3, h4⟩ := hrec
      refine ⟨h1, ?_, h3, h4⟩
      rw [h2]
      simp only [List.length_cons]
      omega
    · have hstep := flushSegApply_excluded opts acc seg hne
        (Bool.not_eq_true _ ▸ Bool.of_not_eq_true hcond)
      rw [List.foldl_cons, hstep]
      have hrec := ih { acc with
          excludedFiles := acc.excludedFiles + 1,
          currentFileLines := [],
          currentFileName := segName seg }
        (fun s hs => hsegs s (List.mem_cons_of_mem _ hs))
      obtain ⟨h1, h2, h3, h4⟩ := hrec
      refine ⟨h1, ?_, h3, h4⟩
      rw [h2]
      simp only [List.length_cons]
      omega

theorem flushSegApply_result_cases (opts : DiffFilterOptions) (acc : FilterState)
    (seg : List Line) (hne : seg ≠ []) :
    (flushSegApply opts acc seg).result = acc.result ++ seg
      ∨ (flushSegApply opts acc seg).result = acc.result := by
  by_cases hcond : (fileMatchesPatterns (segName seg) opts.includePaths opts.excludePaths
      && !acc.reachedMaxFiles && !acc.reachedMaxLines) = true
  · simp only [Bool.and_eq_true, Bool.not_eq_true'] at hcond
    by_cases hc1 : jsTruthy opts.maxFiles = true
        ∧ (acc.includedFiles : Int) ≥ opts.maxFiles.getD 0
    · rw [flushSegApply_hitMaxFiles opts acc seg hne hcond.1.1 hcond.1.2 hcond.2 hc1.1 hc1.2]
      right; rfl
    · have hmf : jsTruthy opts.maxFiles = true →
          (acc.includedFiles : Int) < opts.maxFiles.getD 0 := by
        intro ht
        rcases not_and_or.mp hc1 with h | h
        · exact absurd ht h
        · omega
      by_cases hc2 : jsTruthy opts.maxTotalLines = true
          ∧ ((acc.totalLines + seg.length : Nat) : Int) > opts.maxTotalLines.getD 0
      · rw [flushSegApply_hitMaxLines opts acc seg hne hcond.1.1 hcond.1.2 hcond.2 hmf
          hc2.1 hc2.2]
        right; rfl
      · have hml : jsTruthy opts.maxTotalLines = true →
            ((acc.totalLines + seg.length : Nat) : Int) ≤ opts.maxTotalLines.getD 0 := by
          intro ht
          rcases not_and_or.mp hc2 with h | h
          · exact absurd ht h
          · omega
        rw [flushSegApply_include opts acc seg hne hcond.1.1 hcond.1.2 hcond.2 hmf hml]
        left; rfl
  · rw [flushSegApply_excluded opts acc seg hne (Bool.not_eq_true _ ▸ hcond)]
    right; rfl

theorem foldSegs_sublist (opts : DiffFilterOptions) :
    ∀ (segs : List (List Line)) (acc : FilterState),
    (∀ seg ∈ segs, seg ≠ []) →
    ∃ kept : List (List Line), List.Sublist kept segs ∧
      (segs.foldl (flushSegApply opts) acc).result = acc.result ++ kept.flatten := by
  intro segs
  induction segs with
  | nil => intro acc _; exact ⟨[], by simp, by simp⟩
  | cons seg rest ih =>
    intro acc hsegs
    have hne := hsegs seg (by simp)
    rw [List.foldl_cons]
    obtain ⟨kept, hsub, hres⟩ := ih (flushSegApply opts acc seg)
      (fun s hs => hsegs s (List.mem_cons_of_mem _ hs))
    rcases flushSegApply_result_cases opts acc seg hne with hcase | hcase
    · refine ⟨seg :: kept, List.Sublist.cons₂ seg hsub, ?_⟩
      rw [hres, hcase]
      simp [List.flatten_cons, List.append_assoc]
    · refine ⟨kept, List.Sublist.cons seg hsub, ?_⟩
      rw [hres, hcase]

/-! ## The claims -/

set_option maxRecDepth 100000

/-- Claim C6: for every diff text `d`, the filter stage with no option set
returns `d` byte-identical with `includedFiles = 0`, `excludedFiles = 0` and
`totalLines` the line count of `d`, and the truncator with budget `0`
returns `d` byte-identical. -/
theorem c6_noop_paths (d : Line) :
    filterDiff d {} = (d, ⟨0, 0, (splitNl d).length⟩) ∧ truncateDiff d 0 = d :=
  ⟨rfl, rfl⟩

/-- Claim C7: exclude takes precedence over include in
`fileMatchesPatterns`: a path matching any exclude pattern is rejected even
when an include pattern matches; with no exclude match and a non-empty
include list the file is kept exactly when some include pattern matches;
with no patterns every path is kept; and the spec's concrete example
(`src/a.ts`, include `src/**`, exclude `**/*.ts`) is excluded. -/
theorem c7_exclude_precedence (path : Line) (inc exc : List Line) :
    (exc.any (matchesGlobPattern path) = true →
      fileMatchesPatterns path (some inc) (some exc) = false)
  ∧ (exc.any (matchesGlobPattern path) = false → inc ≠ [] →
      (fileMatchesPatterns path (some inc) (some exc) = true
        ↔ inc.any (matchesGlobPattern path) = true))
  ∧ fileMatchesPatterns path none none = true
  ∧ fileMatchesPatterns (str "src/a.ts") (some [str "src/**"]) (some [str "**/*.ts"])
      = false := by
  refine ⟨?_, ?_, rfl, by decide⟩
  · intro hexc
    unfold fileMatchesPatterns
    rw [if_pos (by simpa using hexc)]
  · intro hexc hinc
    unfold fileMatchesPatterns
    rw [if_neg (by simpa using hexc), if_pos]
    · exact Iff.rfl
    · simpa [List.length_pos] using hinc

/-- Witness for C7 at concrete inputs: the exclude-precedence example is
rejected, and with no exclude match the include list decides. -/
theorem c7_witness :
    fileMatchesPatterns (str "src/a.ts") (some [str "src/**"]) (some [str "**/*.ts"]) = false
  ∧ (fileMatchesPatterns (str "src/a.ts") (some [str "src/**"]) (some [str "docs/**"]) = true
      ↔ ([str "src/**"].any (matchesGlobPattern (str "src/a.ts"))) = true) :=
  ⟨(c7_exclude_precedence (str "src/a.ts") [str "src/**"] [str "**/*.ts"]).1 (by decide),
   (c7_exclude_precedence (str "src/a.ts") [str "src/**"] [str "docs/**"]).2.1
     (by decide) (by decide)⟩

/-- Claim C8: the glob matcher implements the stated pattern language over
the whole path (the executable matcher agrees with the declarative semantics
`SemMatch` of the token reading of the pattern), and the three concrete
examples evaluate as the spec states. -/
theorem c8_glob_semantics :
    (∀ (path pat : Line), matchesGlobPattern path pat = true ↔ SemMatch (tokenize pat) path)
  ∧ matchesGlobPattern (str "src/a/b.ts") (str "src/**/b.ts") = true
  ∧ matchesGlobPattern (str "src/a/b.ts") (str "src/*/b.ts") = true
  ∧ matchesGlobPattern (str "src/a/b/c.ts") (str "src/*/c.ts") = false :=
  ⟨fun path pat => matchToks_iff_semMatch (tokenize pat) path, by decide, by decide, by decide⟩

/-- Concrete file segment for claim C1: one hunk header and six content
lines. -/
def c1FileLines : List Line :=
  [str "@@ -1,6 +1,6 @@", str " a", str " b", str " c", str " d", str " e", str " f"]

/-- Claim C1, counterexample: the truncation marker block has three bracketed
lines (plus two blank lines), not four: for a segment with one hunk header
and six content lines at budget 5 the emitted segment has 11 lines, not
(hunk header count) + floor(0.6*5) + floor(0.4*5) + 6 = 12 as the claim
states. -/
theorem c1_counterexample :
    ((c1FileLines.filter fun l => !isHunkHeader l).length = 6)
  ∧ 5 < (c1FileLines.filter fun l => !isHunkHeader l).length
  ∧ (truncateFileSection c1FileLines (str "f.ts") 5).length = 11
  ∧ ((truncateFileSection c1FileLines (str "f.ts") 5).length
      ≠ (c1FileLines.filter fun l => isHunkHeader l).length + 3 * 5 / 5 + 2 * 5 / 5 + 6) := by
  refine ⟨by decide, by decide, by decide, by decide⟩

/-- Claim C1 (amended): for a budget `m > 0`, a segment whose content-line
count (hunk lines not starting with `@@`) is at most `m` is returned
unchanged regardless of its hunk header count; otherwise the output is all
hunk-header lines, the first `floor(0.6*m)` content lines, a blank line, a
THREE-line bracketed marker block, a blank line, and
`contentLines.slice(-floor(0.4*m))` — the last `floor(0.4*m)` content lines
when `floor(0.4*m) > 0`, but all content lines when `floor(0.4*m) = 0`
(JavaScript `slice(-0)`); hence for `floor(0.4*m) > 0` the emitted segment
has (hunk header count) + floor(0.6*m) + floor(0.4*m) + 5 lines. -/
theorem c1_truncation_amended (fileLines : List Line) (fileName : Line) (m : Nat)
    (hm : 0 < m) :
    ((fileLines.filter fun l => !isHunkHeader l).length ≤ m →
      truncateFileSection fileLines fileName m = fileLines)
  ∧ (m < (fileLines.filter fun l => !isHunkHeader l).length →
      truncateFileSection fileLines fileName m =
        fileLines.filter (fun l => isHunkHeader l)
          ++ (fileLines.filter fun l => !isHunkHeader l).take (3 * m / 5)
          ++ [[]]
          ++ [truncMsgHidden
                ((fileLines.filter fun l => !isHunkHeader l).length - 3 * m / 5 - 2 * m / 5)
                fileName,
              truncMsgTotals (fileLines.filter fun l => !isHunkHeader l).length
                (3 * m / 5) (2 * m / 5),
              truncMsgHint]
          ++ [[]]
          ++ jsSliceLast (fileLines.filter fun l => !isHunkHeader l) (2 * m / 5)
      ∧ (0 < 2 * m / 5 →
          (truncateFileSection fileLines fileName m).length =
            (fileLines.filter fun l => isHunkHeader l).length + 3 * m / 5 + 2 * m / 5 + 5)) := by
  constructor
  · intro hle
    by_cases hfl : fileLines.length ≤ m
    · unfold truncateFileSection
      rw [if_pos hfl]
    · unfold truncateFileSection
      rw [if_neg hfl, if_pos hle]
  · intro hgt
    have hfl : ¬fileLines.length ≤ m := by
      have := List.length_filter_le (fun l => !isHunkHeader l) fileLines
      omega
    have hstruct : truncateFileSection fileLines fileName m =
        fileLines.filter (fun l => isHunkHeader l)
          ++ (fileLines.filter fun l => !isHunkHeader l).take (3 * m / 5)
          ++ [[]]
          ++ [truncMsgHidden
                ((fileLines.filter fun l => !isHunkHeader l).length - 3 * m / 5 - 2 * m / 5)
                fileName,
              truncMsgTotals (fileLines.filter fun l => !isHunkHeader l).length
                (3 * m / 5) (2 * m / 5),
              truncMsgHint]
          ++ [[]]
          ++ jsSliceLast (fileLines.filter fun l => !isHunkHeader l) (2 * m / 5) := by
      unfold truncateFileSection
      rw [if_neg hfl, if_neg (by omega)]
    refine ⟨hstruct, ?_⟩
    intro hpos
    rw [hstruct]
    have h35 : 3 * m / 5 ≤ m := by omega
    have h25 : 2 * m / 5 ≤ m := by omega
    have htake : ((fileLines.filter fun l => !isHunkHeader l).take (3 * m / 5)).length
        = 3 * m / 5 := by
      rw [List.length_take]
      omega
    have hdrop : (jsSliceLast (fileLines.filter fun l => !isHunkHeader l) (2 * m / 5)).length
        = 2 * m / 5 := by
      unfold jsSliceLast
      rw [if_neg (by omega), List.length_drop]
      omega
    simp only [List.length_append, htake, hdrop, List.length_cons, List.length_nil]
    omega

/-- Witness for C1 at concrete inputs: a two-content-line segment passes
through unchanged at budget 5, and the six-content-line segment is truncated
to (hunk header count) + 3 + 2 + 5 lines. -/
theorem c1_witness :
    truncateFileSection [str "@@ x", str " a", str " b"] (str "f") 5
        = [str "@@ x", str " a", str " b"]
  ∧ (truncateFileSection c1FileLines (str "f.ts") 5).length
      = (c1FileLines.filter fun l => isHunkHeader l).length + 3 * 5 / 5 + 2 * 5 / 5 + 5 :=
  ⟨(c1_truncation_amended [str "@@ x", str " a", str " b"] (str "f") 5 (by decide)).1
      (by decide),
   ((c1_truncation_amended c1FileLines (str "f.ts") 5 (by decide)).2 (by decide)).2
      (by decide)⟩

theorem segWF_ne_nil (seg : List Line) (h : segWF seg = true) : seg ≠ [] := by
  cases seg with
  | nil => simp [segWF] at h
  | cons a b => simp

/-- Content lines of a segment in the spec's sense: the lines from the first
hunk header onward that are not hunk headers themselves. -/
def hunkContentCount (seg : List Line) : Nat :=
  ((seg.dropWhile fun l => !isHunkHeader l).filter fun l => !isHunkHeader l).length

def c2body : List Line :=
  [str " 1", str " 2", str " 3", str " 4", str " 5",
   str " 6", str " 7", str " 8", str " 9", str " 10"]

def c2segA : List Line :=
  [str "diff --git a/f1 b/f1", str "index 1..2 100644", str "--- a/f1", str "+++ b/f1",
   str "@@ -1,10 +1,10 @@"] ++ c2body

def c2segB : List Line :=
  [str "diff --git a/f2 b/f2", str "index 1..2 100644", str "--- a/f2", str "+++ b/f2",
   str "@@ -1,10 +1,10 @@"] ++ c2body

def c2segC : List Line :=
  [str "diff --git a/f3 b/f3", str "index 1..2 100644", str "--- a/f3", str "+++ b/f3",
   str "@@ -1,10 +1,10 @@"] ++ c2body

def c2diff : Line := joinNl (c2segA ++ c2segB ++ c2segC)

/-- Claim C2, counterexample: the filter counts header lines against
`maxTotalLines` too.  Three segments with content-line count 10 each (and 15
lines in total each): with `maxTotalLines = 15` the first segment (15 lines)
is included and `stats.totalLines` is 15, not 10 as the claim states. -/
theorem c2_counterexample :
    hunkContentCount c2segA = 10 ∧ hunkContentCount c2segB = 10
  ∧ hunkContentCount c2segC = 10
  ∧ (filterDiff c2diff ⟨none, none, none, some 15⟩).2.excludedFiles = 2
  ∧ (filterDiff c2diff ⟨none, none, none, some 15⟩).2.totalLines = 15
  ∧ (filterDiff c2diff ⟨none, none, none, some 15⟩).2.totalLines ≠ 10 :=
  ⟨by decide, by decide, by decide, by decide, by decide, by decide⟩

/-- Claim C2 (amended): the filter counts every segment line (headers
included) against `maxTotalLines`.  For a diff of three well-formed segments
of 10 lines each and `maxTotalLines = 15`, only the first segment is
included (adding the second would reach 20 > 15), the cutoff is sticky for
the third, and the stats are `includedFiles = 1`, `excludedFiles = 2`,
`totalLines = 10`. -/
theorem c2_maxTotalLines_amended (d : Line) (s1 s2 s3 : List Line)
    (hsplit : splitNl d = s1 ++ (s2 ++ s3))
    (hwf1 : segWF s1 = true) (hwf2 : segWF s2 = true) (hwf3 : segWF s3 = true)
    (hn1 : segName s1 ≠ []) (hn2 : segName s2 ≠ []) (hn3 : segName s3 ≠ [])
    (hl1 : s1.length = 10) (hl2 : s2.length = 10) (hl3 : s3.length = 10) :
    (filterDiff d ⟨none, none, none, some 15⟩).2 = ⟨1, 2, 10⟩
  ∧ (filterDiff d ⟨none, none, none, some 15⟩).1
      = joinNl (s1 ++ [[], str "[*** DIFF FILTERED: 2 files excluded ***]",
          str "[*** Reached maxTotalLines limit of 15 ***]",
          str "[*** Showing 1 files, 10 lines ***]"]) := by
  have hsegs : ∀ seg ∈ [s1, s2, s3], segWF seg = true ∧ segName seg ≠ [] := by
    intro seg hseg
    simp only [List.mem_cons, List.not_mem_nil, or_false] at hseg
    rcases hseg with rfl | rfl | rfl
    · exact ⟨hwf1, hn1⟩
    · exact ⟨hwf2, hn2⟩
    · exact ⟨hwf3, hn3⟩
  set opts : DiffFilterOptions := ⟨none, none, none, some 15⟩ with hopts
  have heq := filterDiff_segments d opts [] [s1, s2, s3]
    (by simpa using hsplit) (by simp) hsegs (by simp [hopts, jsTruthy])
  have hkeep : ∀ seg : List Line,
      fileMatchesPatterns (segName seg) opts.includePaths opts.excludePaths = true := by
    intro seg
    rfl
  have h1 : flushSegApply opts initFilterState s1
      = ⟨s1, [], segName s1, 1, 0, 10, false, false⟩ := by
    rw [flushSegApply_include opts initFilterState s1 (segWF_ne_nil s1 hwf1) (hkeep s1)
      rfl rfl
      (fun ht => by simp [hopts, jsTruthy] at ht)
      (fun _ => by simp [hopts, initFilterState, hl1])]
    simp [initFilterState, hl1]
  have h2 : flushSegApply opts ⟨s1, [], segName s1, 1, 0, 10, false, false⟩ s2
      = ⟨s1, [], segName s2, 1, 1, 10, false, true⟩ := by
    rw [flushSegApply_hitMaxLines opts _ s2 (segWF_ne_nil s2 hwf2) (hkeep s2) rfl rfl
      (fun ht => by simp [hopts, jsTruthy] at ht)
      (by simp [hopts, jsTruthy])
      (by simp [hopts, hl2])]
  have h3 : flushSegApply opts ⟨s1, [], segName s2, 1, 1, 10, false, true⟩ s3
      = ⟨s1, [], segName s3, 1, 2, 10, false, true⟩ := by
    rw [flushSegApply_excluded opts _ s3 (segWF_ne_nil s3 hwf3) (by simp)]
  have hst : filterFoldState opts [] [s1, s2, s3]
      = ⟨s1, [], segName s3, 1, 2, 10, false, true⟩ := by
    unfold filterFoldState
    simp only [List.foldl_cons, List.foldl_nil]
    rw [show ({ initFilterState with result := ([] : List Line) }) = initFilterState from rfl,
      h1, h2, h3]
  rw [heq, hst]
  constructor
  · rfl
  · show joinNl (if (2 : Nat) > 0
        then s1 ++ summaryBlock opts ⟨s1, [], segName s3, 1, 2, 10, false, true⟩
        else s1) = _
    have hsum : summaryBlock opts ⟨s1, [], segName s3, 1, 2, 10, false, true⟩
        = [[], str "[*** DIFF FILTERED: 2 files excluded ***]",
           str "[*** Reached maxTotalLines limit of 15 ***]",
           str "[*** Showing 1 files, 10 lines ***]"] := by
      simp only [summaryBlock]
      decide
    rw [if_pos (by omega), hsum]

def c2wBody : List Line := [str " a1", str " a2", str " a3", str " a4", str " a5"]

def c2wSegA : List Line :=
  [str "diff --git a/f1 b/f1", str "index 1..2 100644", str "--- a/f1", str "+++ b/f1",
   str "@@ -1,5 +1,5 @@"] ++ c2wBody

def c2wSegB : List Line :=
  [str "diff --git a/f2 b/f2", str "index 1..2 100644", str "--- a/f2", str "+++ b/f2",
   str "@@ -1,5 +1,5 @@"] ++ c2wBody

def c2wSegC : List Line :=
  [str "diff --git a/f3 b/f3", str "index 1..2 100644", str "--- a/f3", str "+++ b/f3",
   str "@@ -1,5 +1,5 @@"] ++ c2wBody

/-- Witness for the amended C2 at a concrete three-segment diff of 10 lines
per segment. -/
theorem c2_witness :
    (filterDiff (joinNl (c2wSegA ++ (c2wSegB ++ c2wSegC))) ⟨none, none, none, some 15⟩).2
      = ⟨1, 2, 10⟩
  ∧ (filterDiff (joinNl (c2wSegA ++ (c2wSegB ++ c2wSegC))) ⟨none, none, none, some 15⟩).1
      = joinNl (c2wSegA ++ [[], str "[*** DIFF FILTERED: 2 files excluded ***]",
          str "[*** Reached maxTotalLines limit of 15 ***]",
          str "[*** Showing 1 files, 10 lines ***]"]) :=
  c2_maxTotalLines_amended (joinNl (c2wSegA ++ (c2wSegB ++ c2wSegC))) c2wSegA c2wSegB c2wSegC
    (by decide) (by decide) (by decide) (by decide) (by decide) (by decide) (by decide)
    (by decide) (by decide) (by decide)

/-- Claim C5: the `maxFiles` cutoff is sticky and total.  For a diff of five
well-formed segments that all pass the path patterns and `maxFiles = 2`,
exactly the first two segments are included, the remaining three are
excluded (`stats.excludedFiles = 3`), including the ones after the cutoff
that would otherwise pass. -/
theorem c5_maxFiles_sticky (d : Line) (s1 s2 s3 s4 s5 : List Line)
    (inc exc : Option (List Line))
    (hsplit : splitNl d = s1 ++ (s2 ++ (s3 ++ (s4 ++ s5))))
    (hwf1 : segWF s1 = true) (hwf2 : segWF s2 = true) (hwf3 : segWF s3 = true)
    (hwf4 : segWF s4 = true) (hwf5 : segWF s5 = true)
    (hn1 : segName s1 ≠ []) (hn2 : segName s2 ≠ []) (hn3 : segName s3 ≠ [])
    (hn4 : segName s4 ≠ []) (hn5 : segName s5 ≠ [])
    (hp1 : fileMatchesPatterns (segName s1) inc exc = true)
    (hp2 : fileMatchesPatterns (segName s2) inc exc = true)
    (hp3 : fileMatchesPatterns (segName s3) inc exc = true)
    (hp4 : fileMatchesPatterns (segName s4) inc exc = true)
    (hp5 : fileMatchesPatterns (segName s5) inc exc = true) :
    (filterDiff d ⟨inc, exc, some 2, none⟩).2 = ⟨2, 3, s1.length + s2.length⟩
  ∧ (filterDiff d ⟨inc, exc, some 2, none⟩).1
      = joinNl (s1 ++ s2 ++ [[], str "[*** DIFF FILTERED: 3 files excluded ***]",
          str "[*** Reached maxFiles limit of 2 ***]",
          str "[*** Showing 2 files, " ++ natToLine (s1.length + s2.length)
            ++ str " lines ***]"]) := by
  have hsegs : ∀ seg ∈ [s1, s2, s3, s4, s5], segWF seg = true ∧ segName seg ≠ [] := by
    intro seg hseg
    simp only [List.mem_cons, List.not_mem_nil, or_false] at hseg
    rcases hseg with rfl | rfl | rfl | rfl | rfl
    · exact ⟨hwf1, hn1⟩
    · exact ⟨hwf2, hn2⟩
    · exact ⟨hwf3, hn3⟩
    · exact ⟨hwf4, hn4⟩
    · exact ⟨hwf5, hn5⟩
  set opts : DiffFilterOptions := ⟨inc, exc, some 2, none⟩ with hopts
  have heq := filterDiff_segments d opts [] [s1, s2, s3, s4, s5]
    (by simpa using hsplit) (by simp) hsegs (by simp [hopts, jsTruthy])
  have h1 : flushSegApply opts initFilterState s1
      = ⟨s1, [], segName s1, 1, 0, s1.length, false, false⟩ := by
    rw [flushSegApply_include opts initFilterState s1 (segWF_ne_nil s1 hwf1) hp1 rfl rfl
      (fun _ => by simp [hopts, initFilterState])
      (fun ht => by simp [hopts, jsTruthy] at ht)]
    simp [initFilterState]
  have h2 : flushSegApply opts ⟨s1, [], segName s1, 1, 0, s1.length, false, false⟩ s2
      = ⟨s1 ++ s2, [], segName s2, 2, 0, s1.length + s2.length, false, false⟩ := by
    rw [flushSegApply_include opts _ s2 (segWF_ne_nil s2 hwf2) hp2 rfl rfl
      (fun _ => by simp [hopts])
      (fun ht => by simp [hopts, jsTruthy] at ht)]
  have h3 : flushSegApply opts
        ⟨s1 ++ s2, [], segName s2, 2, 0, s1.length + s2.length, false, false⟩ s3
      = ⟨s1 ++ s2, [], segName s3, 2, 1, s1.length + s2.length, true, false⟩ := by
    rw [flushSegApply_hitMaxFiles opts _ s3 (segWF_ne_nil s3 hwf3) hp3 rfl rfl
      (by simp [hopts, jsTruthy])
      (by simp [hopts])]
  have h4 : flushSegApply opts
        ⟨s1 ++ s2, [], segName s3, 2, 1, s1.length + s2.length, true, false⟩ s4
      = ⟨s1 ++ s2, [], segName s4, 2, 2, s1.length + s2.length, true, false⟩ := by
    rw [flushSegApply_excluded opts _ s4 (segWF_ne_nil s4 hwf4) (by simp)]
  have h5 : flushSegApply opts
        ⟨s1 ++ s2, [], segName s4, 2, 2, s1.length + s2.length, true, false⟩ s5
      = ⟨s1 ++ s2, [], segName s5, 2, 3, s1.length + s2.length, true, false⟩ := by
    rw [flushSegApply_excluded opts _ s5 (segWF_ne_nil s5 hwf5) (by simp)]
  have hst : filterFoldState opts [] [s1, s2, s3, s4, s5]
      = ⟨s1 ++ s2, [], segName s5, 2, 3, s1.length + s2.length, true, false⟩ := by
    unfold filterFoldState
    simp only [List.foldl_cons, List.foldl_nil]
    rw [show ({ initFilterState with result := ([] : List Line) }) = initFilterState from rfl,
      h1, h2, h3, h4, h5]
  rw [heq, hst]
  refine ⟨rfl, ?_⟩
  show joinNl (if (3 : Nat) > 0
      then (s1 ++ s2) ++ summaryBlock opts
        ⟨s1 ++ s2, [], segName s5, 2, 3, s1.length + s2.length, true, false⟩
      else s1 ++ s2) = _
  have hA : str "[*** DIFF FILTERED: " ++ natToLine 3 ++ str " files excluded ***]"
      = str "[*** DIFF FILTERED: 3 files excluded ***]" := by decide
  have hB : str "[*** Reached maxFiles limit of " ++ intToLine 2 ++ str " ***]"
      = str "[*** Reached maxFiles limit of 2 ***]" := by decide
  have hshow : ∀ r : Line, str "[*** Showing " ++ (natToLine 2 ++ (str " files, " ++ r))
      = str "[*** Showing 2 files, " ++ r := by
    intro r
    rw [← List.append_assoc, ← List.append_assoc]
    rw [show str "[*** Showing " ++ natToLine 2 ++ str " files, "
      = str "[*** Showing 2 files, " from by decide]
  have hsum : summaryBlock opts
        ⟨s1 ++ s2, [], segName s5, 2, 3, s1.length + s2.length, true, false⟩
      = [[], str "[*** DIFF FILTERED: 3 files excluded ***]",
         str "[*** Reached maxFiles limit of 2 ***]",
         str "[*** Showing 2 files, " ++ natToLine (s1.length + s2.length)
           ++ str " lines ***]"] := by
    simp only [summaryBlock, hA, hB, Option.getD_some]
    simp [hshow, List.append_assoc]
  rw [if_pos (by omega), hsum]

def c5wSegD : List Line :=
  [str "diff --git a/f4 b/f4", str "index 1..2 100644", str "--- a/f4", str "+++ b/f4",
   str "@@ -1,5 +1,5 @@"] ++ c2wBody

def c5wSegE : List Line :=
  [str "diff --git a/f5 b/f5", str "index 1..2 100644", str "--- a/f5", str "+++ b/f5",
   str "@@ -1,5 +1,5 @@"] ++ c2wBody

/-- Witness for C5 at a concrete five-segment diff with `maxFiles = 2`. -/
theorem c5_witness :
    (filterDiff (joinNl (c2wSegA ++ (c2wSegB ++ (c2wSegC ++ (c5wSegD ++ c5wSegE)))))
        ⟨none, none, some 2, none⟩).2 = ⟨2, 3, c2wSegA.length + c2wSegB.length⟩
  ∧ (filterDiff (joinNl (c2wSegA ++ (c2wSegB ++ (c2wSegC ++ (c5wSegD ++ c5wSegE)))))
        ⟨none, none, some 2, none⟩).1
      = joinNl (c2wSegA ++ c2wSegB ++ [[], str "[*** DIFF FILTERED: 3 files excluded ***]",
          str "[*** Reached maxFiles limit of 2 ***]",
          str "[*** Showing 2 files, " ++ natToLine (c2wSegA.length + c2wSegB.length)
            ++ str " lines ***]"]) :=
  c5_maxFiles_sticky (joinNl (c2wSegA ++ (c2wSegB ++ (c2wSegC ++ (c5wSegD ++ c5wSegE)))))
    c2wSegA c2wSegB c2wSegC c5wSegD c5wSegE none none
    (by decide) (by decide) (by decide) (by decide) (by decide) (by decide)
    (by decide) (by decide) (by decide) (by decide) (by decide)
    (by decide) (by decide) (by decide) (by decide) (by decide)

theorem countP_flatten_headers :
    ∀ (segs : List (List Line)), (∀ seg ∈ segs, segWF seg = true) →
    segs.flatten.countP (fun l => isDiffGitLine l) = segs.length := by
  intro segs
  induction segs with
  | nil => intro _; simp
  | cons seg rest ih =>
    intro hsegs
    have hseg := hsegs seg (by simp)
    rw [List.flatten_cons, List.countP_append,
      ih (fun s hs => hsegs s (List.mem_cons_of_mem _ hs))]
    cases seg with
    | nil => simp [segWF] at hseg
    | cons h t =>
      simp only [segWF, Bool.and_eq_true, List.all_eq_true, Bool.not_eq_true'] at hseg
      rw [List.countP_cons]
      have ht : t.countP (fun l => isDiffGitLine l) = 0 := by
        rw [List.countP_eq_zero]
        intro a ha
        simp [hseg.2 a ha]
      simp [ht, hseg.1]
      omega

/-- Number of `diff --git ` header lines of a preamble-plus-segments
document: one per segment. -/
theorem countP_headers (pre : List Line) (segs : List (List Line))
    (hpre : ∀ l ∈ pre, isDiffGitLine l = false)
    (hsegs : ∀ seg ∈ segs, segWF seg = true) :
    (pre ++ segs.flatten).countP (fun l => isDiffGitLine l) = segs.length := by
  rw [List.countP_append, countP_flatten_headers segs hsegs]
  have h0 : pre.countP (fun l => isDiffGitLine l) = 0 := by
    rw [List.countP_eq_zero]
    intro a ha
    simp [hpre a ha]
  rw [h0]
  omega

def c9diff : Line :=
  joinNl [str "diff --git broken", str "hello", str "diff --git a/f b/f", str "+x"]

def c9opts : DiffFilterOptions := ⟨some [str "**"], none, none, none⟩

/-- Claim C9, counterexample: a segment whose header does not parse gets the
empty file name, which is falsy, so the segment's following lines bypass the
buffering and are emitted before the header is flushed.  In this diff both
segments pass the include pattern `**`, no cutoff is set, and no file is
excluded, yet the output is not byte-identical to the input (the bypassed
line `hello` is emitted before its `diff --git broken` header). -/
theorem c9_counterexample :
    splitNl c9diff
      = [str "diff --git broken", str "hello"] ++ [str "diff --git a/f b/f", str "+x"]
  ∧ segWF [str "diff --git broken", str "hello"] = true
  ∧ segWF [str "diff --git a/f b/f", str "+x"] = true
  ∧ fileMatchesPatterns (segName [str "diff --git broken", str "hello"])
      c9opts.includePaths c9opts.excludePaths = true
  ∧ fileMatchesPatterns (segName [str "diff --git a/f b/f", str "+x"])
      c9opts.includePaths c9opts.excludePaths = true
  ∧ (filterDiff c9diff c9opts).2.excludedFiles = 0
  ∧ (filterDiff c9diff c9opts).2.includedFiles = 2
  ∧ (filterDiff c9diff c9opts).1 ≠ c9diff :=
  ⟨by decide, by decide, by decide, by decide, by decide, by decide, by decide, by decide⟩

/-- Claim C9 (amended): for a diff whose lines split into a preamble without
header lines and well-formed segments whose headers all parse to a non-empty
name, if at least one filter option is set, every segment passes the
include/exclude predicate and neither cutoff can fire, then the filter's
output is byte-identical to the input, `excludedFiles = 0`, and
`includedFiles` equals the number of `diff --git ` segments of the input. -/
theorem c9_passthrough_amended (d : Line) (opts : DiffFilterOptions)
    (pre : List Line) (segs : List (List Line))
    (hsplit : splitNl d = pre ++ segs.flatten)
    (hpre : ∀ l ∈ pre, isDiffGitLine l = false)
    (hsegs : ∀ seg ∈ segs, segWF seg = true ∧ segName seg ≠ [])
    (hpass : ∀ seg ∈ segs,
      fileMatchesPatterns (segName seg) opts.includePaths opts.excludePaths = true)
    (hset : (!jsTruthyLen opts.includePaths && !jsTruthyLen opts.excludePaths
      && !jsTruthy opts.maxFiles && !jsTruthy opts.maxTotalLines) = false)
    (hmf : jsTruthy opts.maxFiles = true → ((segs.length : Nat) : Int) ≤ opts.maxFiles.getD 0)
    (hml : jsTruthy opts.maxTotalLines = true →
      (((segs.map List.length).sum : Nat) : Int) ≤ opts.maxTotalLines.getD 0) :
    (filterDiff d opts).1 = d
  ∧ (filterDiff d opts).2.excludedFiles = 0
  ∧ (filterDiff d opts).2.includedFiles
      = (splitNl d).countP (fun l => isDiffGitLine l) := by
  have heq := filterDiff_segments d opts pre segs hsplit hpre hsegs hset
  have hfold := foldSegs_all_included opts segs { initFilterState with result := pre }
    (fun seg hs => ⟨segWF_ne_nil seg (hsegs seg hs).1, hpass seg hs⟩) rfl rfl
    (fun ht => by simpa [initFilterState] using hmf ht)
    (fun ht => by simpa [initFilterState] using hml ht)
  obtain ⟨h1, h2, h3, h4, h5, h6⟩ := hfold
  have hres : (filterFoldState opts pre segs).result = pre ++ segs.flatten := by
    unfold filterFoldState
    simpa [initFilterState] using h1
  have hexc : (filterFoldState opts pre segs).excludedFiles = 0 := by
    unfold filterFoldState
    simpa [initFilterState] using h3
  have hinc : (filterFoldState opts pre segs).includedFiles = segs.length := by
    unfold filterFoldState
    simpa [initFilterState] using h2
  rw [heq]
  simp only [assembleFilter]
  refine ⟨?_, hexc, ?_⟩
  · rw [hexc, if_neg (by omega), hres, ← hsplit, joinNl_splitNl]
  · rw [hinc, hsplit, countP_headers pre segs hpre (fun seg hs => (hsegs seg hs).1)]

/-- Witness for the amended C9: a concrete two-segment diff with an include
pattern that matches both files passes through byte-identically. -/
theorem c9_witness :
    (filterDiff (joinNl (c2wSegA ++ c2wSegB)) ⟨some [str "**"], none, none, none⟩).1
      = joinNl (c2wSegA ++ c2wSegB)
  ∧ (filterDiff (joinNl (c2wSegA ++ c2wSegB)) ⟨some [str "**"], none, none, none⟩).2.excludedFiles
      = 0
  ∧ (filterDiff (joinNl (c2wSegA ++ c2wSegB)) ⟨some [str "**"], none, none, none⟩).2.includedFiles
      = (splitNl (joinNl (c2wSegA ++ c2wSegB))).countP (fun l => isDiffGitLine l) :=
  c9_passthrough_amended (joinNl (c2wSegA ++ c2wSegB)) ⟨some [str "**"], none, none, none⟩
    [] [c2wSegA, c2wSegB]
    (by decide)
    (by decide)
    (by decide)
    (by decide)
    (by decide)
    (by decide)
    (by decide)

/-- Claim C3, counterexample: a negative `maxFiles` is not treated as
unlimited by the filter stage.  With `maxFiles = -1`, a one-segment diff
whose file passes the (absent) patterns is excluded: `includedFiles = 0`,
`excludedFiles = 1`, and the output is not the input. -/
theorem c3_counterexample :
    fileMatchesPatterns (segName c2wSegA) none none = true
  ∧ (filterDiff (joinNl c2wSegA) ⟨none, none, some (-1), none⟩).2.includedFiles = 0
  ∧ (filterDiff (joinNl c2wSegA) ⟨none, none, some (-1), none⟩).2.excludedFiles = 1
  ∧ (filterDiff (joinNl c2wSegA) ⟨none, none, some (-1), none⟩).1 ≠ joinNl c2wSegA :=
  ⟨by decide, by decide, by decide, by decide⟩

/-- Claim C3 (amended): `truncateDiff` treats every budget `≤ 0` as
unlimited (returns its input unchanged), but the filter stage does NOT
normalize negative limits: a negative `maxFiles` (the comparison
`includedFiles >= maxFiles` holds immediately) and a negative
`maxTotalLines` (the comparison `totalLines + length > maxTotalLines` holds
immediately) exclude every file segment, giving `includedFiles = 0`,
`excludedFiles` = the number of segments, `totalLines = 0`. -/
theorem c3_negative_limits_amended :
    (∀ (d : Line) (m : Int), m ≤ 0 → truncateDiff d m = d)
  ∧ (∀ (d : Line) (n : Int) (inc exc : Option (List Line))
      (pre : List Line) (segs : List (List Line)),
      n < 0 → splitNl d = pre ++ segs.flatten →
      (∀ l ∈ pre, isDiffGitLine l = false) →
      (∀ seg ∈ segs, segWF seg = true ∧ segName seg ≠ []) →
      (filterDiff d ⟨inc, exc, some n, none⟩).2 = ⟨0, segs.length, 0⟩)
  ∧ (∀ (d : Line) (n : Int) (inc exc : Option (List Line))
      (pre : List Line) (segs : List (List Line)),
      n < 0 → splitNl d = pre ++ segs.flatten →
      (∀ l ∈ pre, isDiffGitLine l = false) →
      (∀ seg ∈ segs, segWF seg = true ∧ segName seg ≠ []) →
      (filterDiff d ⟨inc, exc, none, some n⟩).2 = ⟨0, segs.length, 0⟩) := by
  refine ⟨?_, ?_, ?_⟩
  · intro d m hm
    unfold truncateDiff
    rw [if_pos hm]
  · intro d n inc exc pre segs hneg hsplit hpre hsegs
    have heq := filterDiff_segments d ⟨inc, exc, some n, none⟩ pre segs hsplit hpre hsegs
      (by simp [jsTruthy]; omega)
    have hfold := foldSegs_neg_maxFiles ⟨inc, exc, some n, none⟩ n rfl hneg segs
      { initFilterState with result := pre }
      (fun seg hs => segWF_ne_nil seg (hsegs seg hs).1)
    obtain ⟨h1, h2, h3, -⟩ := hfold
    rw [heq]
    simp only [assembleFilter]
    unfold filterFoldState
    refine DiffStats.mk.injEq .. ▸ ?_
    exact ⟨by simpa [initFilterState] using h1,
      by simpa [initFilterState] using h2,
      by simpa [initFilterState] using h3⟩
  · intro d n inc exc pre segs hneg hsplit hpre hsegs
    have heq := filterDiff_segments d ⟨inc, exc, none, some n⟩ pre segs hsplit hpre hsegs
      (by simp [jsTruthy]; omega)
    have hfold := foldSegs_neg_maxTotalLines ⟨inc, exc, none, some n⟩ n rfl rfl hneg segs
      { initFilterState with result := pre }
      (fun seg hs => segWF_ne_nil seg (hsegs seg hs).1)
    obtain ⟨h1, h2, h3, -⟩ := hfold
    rw [heq]
    simp only [assembleFilter]
    unfold filterFoldState
    refine DiffStats.mk.injEq .. ▸ ?_
    exact ⟨by simpa [initFilterState] using h1,
      by simpa [initFilterState] using h2,
      by simpa [initFilterState] using h3⟩

/-- Witness for the amended C3: the truncator with budget `-3` passes a
concrete diff through unchanged, and negative `maxFiles`/`maxTotalLines`
exclude the two segments of a concrete diff. -/
theorem c3_witness :
    truncateDiff (joinNl c2wSegA) (-3) = joinNl c2wSegA
  ∧ (filterDiff (joinNl (c2wSegA ++ c2wSegB)) ⟨none, none, some (-1), none⟩).2 = ⟨0, 2, 0⟩
  ∧ (filterDiff (joinNl (c2wSegA ++ c2wSegB)) ⟨none, none, none, some (-7)⟩).2 = ⟨0, 2, 0⟩ :=
  ⟨c3_negative_limits_amended.1 (joinNl c2wSegA) (-3) (by decide),
   c3_negative_limits_amended.2.1 (joinNl (c2wSegA ++ c2wSegB)) (-1) none none []
     [c2wSegA, c2wSegB] (by decide) (by decide) (by decide) (by decide),
   c3_negative_limits_amended.2.2 (joinNl (c2wSegA ++ c2wSegB)) (-7) none none []
     [c2wSegA, c2wSegB] (by decide) (by decide) (by decide) (by decide)⟩

/-- Claim C4, counterexample: a segment whose `diff --git` header does not
match the two-path pattern is NOT evaluated as one unit.  In this diff the
unparsable-header segment [`diff --git broken`, `hello`] gets file name `""`,
which the exclude pattern `**` rejects — yet the segment's second line
`hello` still appears in the filtered output (only the header line went
through the predicate), so a line of the segment bypasses the filter. -/
theorem c4_counterexample :
    jsDiffGitMatch (str "diff --git broken") = none
  ∧ fileMatchesPatterns [] none (some [str "**"]) = false
  ∧ (filterDiff c9diff ⟨none, some [str "**"], none, none⟩).2.includedFiles = 0
  ∧ (filterDiff c9diff ⟨none, some [str "**"], none, none⟩).2.excludedFiles = 2
  ∧ (splitNl (filterDiff c9diff ⟨none, some [str "**"], none, none⟩).1).contains
      (str "hello") = true :=
  ⟨by decide, by decide, by decide, by decide, by decide⟩

/-- Claim C4 (amended): for segments whose headers parse to a non-empty file
name, the filter is all-or-nothing per segment: the output text is the
preamble followed by the concatenation of a sublist of the segments,
possibly followed by the summary block — no segment is ever emitted
partially.  (A segment with an unparsable header is the exception the
counterexample exhibits: only its header line is filtered, its remaining
lines bypass the filter.) -/
theorem c4_segment_unit_amended (d : Line) (opts : DiffFilterOptions)
    (pre : List Line) (segs : List (List Line))
    (hsplit : splitNl d = pre ++ segs.flatten)
    (hpre : ∀ l ∈ pre, isDiffGitLine l = false)
    (hsegs : ∀ seg ∈ segs, segWF seg = true ∧ segName seg ≠ [])
    (hset : (!jsTruthyLen opts.includePaths && !jsTruthyLen opts.excludePaths
      && !jsTruthy opts.maxFiles && !jsTruthy opts.maxTotalLines) = false) :
    ∃ kept : List (List Line), List.Sublist kept segs ∧
      ((filterDiff d opts).1 = joinNl (pre ++ kept.flatten)
        ∨ ∃ fin : FilterState,
            (filterDiff d opts).1
              = joinNl ((pre ++ kept.flatten) ++ summaryBlock opts fin)) := by
  have heq := filterDiff_segments d opts pre segs hsplit hpre hsegs hset
  obtain ⟨kept, hsub, hres⟩ := foldSegs_sublist opts segs
    { initFilterState with result := pre }
    (fun seg hs => segWF_ne_nil seg (hsegs seg hs).1)
  have hres2 : (filterFoldState opts pre segs).result = pre ++ kept.flatten := by
    unfold filterFoldState
    simpa [initFilterState] using hres
  rw [heq]
  simp only [assembleFilter]
  refine ⟨kept, hsub, ?_⟩
  by_cases hexc : (filterFoldState opts pre segs).excludedFiles > 0
  · right
    exact ⟨filterFoldState opts pre segs, by rw [if_pos hexc, hres2]⟩
  · left
    rw [if_neg hexc, hres2]

/-- Witness for the amended C4 at a concrete diff: with exclude pattern
`**/f1`, the output is the kept second segment, followed by the summary. -/
theorem c4_witness :
    ∃ kept : List (List Line), List.Sublist kept [c2wSegA, c2wSegB] ∧
      ((filterDiff (joinNl (c2wSegA ++ c2wSegB)) ⟨none, some [str "**/f1"], none, none⟩).1
          = joinNl ([] ++ kept.flatten)
        ∨ ∃ fin : FilterState,
            (filterDiff (joinNl (c2wSegA ++ c2wSegB)) ⟨none, some [str "**/f1"], none, none⟩).1
              = joinNl (([] ++ kept.flatten)
                  ++ summaryBlock ⟨none, some [str "**/f1"], none, none⟩ fin)) :=
  c4_segment_unit_amended (joinNl (c2wSegA ++ c2wSegB)) ⟨none, some [str "**/f1"], none, none⟩
    [] [c2wSegA, c2wSegB] (by decide) (by decide) (by decide) (by decide)

/-- The file-metadata lines of claim C10: `diff --git `, `index `, `+++`,
`---` prefixes, exactly the prefixes `truncateDiff`'s loop treats as
metadata. -/
def isMeta (l : Line) : Bool :=
  isDiffGitLine l || (str "index ").isPrefixOf l || (str "+++").isPrefixOf l
    || (str "---").isPrefixOf l

theorem isMeta_nil : isMeta [] = false := rfl

theorem isMeta_bracket (rest : Line) : isMeta ('[' :: rest) = false := rfl

theorem isMeta_truncMsgHidden (c : Nat) (name : Line) :
    isMeta (truncMsgHidden c name) = false := rfl

theorem isMeta_truncMsgTotals (t a b : Nat) : isMeta (truncMsgTotals t a b) = false := rfl

theorem isMeta_truncMsgHint : isMeta truncMsgHint = false := rfl

theorem no_newline_append {a b : Line} (ha : '\n' ∉ a) (hb : '\n' ∉ b) :
    '\n' ∉ a ++ b := by
  simp only [List.mem_append, not_or]
  exact ⟨ha, hb⟩

theorem no_newline_truncMsgHidden (c : Nat) (name : Line) (hname : '\n' ∉ name) :
    '\n' ∉ truncMsgHidden c name := by
  intro h
  simp only [truncMsgHidden, List.mem_append] at h
  rcases h with (((h | h) | h) | h) | h
  · exact absurd h (by decide)
  · exact absurd h (natToLine_no_newline c)
  · exact absurd h (by decide)
  · exact absurd h hname
  · exact absurd h (by decide)

theorem no_newline_truncMsgTotals (t a b : Nat) : '\n' ∉ truncMsgTotals t a b := by
  intro h
  simp only [truncMsgTotals, List.mem_append] at h
  rcases h with (((((h | h) | h) | h) | h) | h) | h
  · exact absurd h (by decide)
  · exact absurd h (natToLine_no_newline t)
  · exact absurd h (by decide)
  · exact absurd h (natToLine_no_newline a)
  · exact absurd h (by decide)
  · exact absurd h (natToLine_no_newline b)
  · exact absurd h (by decide)

theorem no_newline_truncMsgHint : '\n' ∉ truncMsgHint := by decide

/-- The two shapes `truncateFileSection` can return: the input unchanged, or
the truncated assembly. -/
theorem truncateFileSection_eq (fl : List Line) (name : Line) (m : Nat) :
    truncateFileSection fl name m = fl
    ∨ truncateFileSection fl name m =
        fl.filter (fun l => isHunkHeader l)
          ++ ((fl.filter fun l => !isHunkHeader l).take (3 * m / 5)
          ++ ([[]]
          ++ ([truncMsgHidden
                ((fl.filter fun l => !isHunkHeader l).length - 3 * m / 5 - 2 * m / 5) name,
              truncMsgTotals (fl.filter fun l => !isHunkHeader l).length
                (3 * m / 5) (2 * m / 5),
              truncMsgHint]
          ++ ([[]]
          ++ jsSliceLast (fl.filter fun l => !isHunkHeader l) (2 * m / 5))))) := by
  unfold truncateFileSection
  by_cases h1 : fl.length ≤ m
  · rw [if_pos h1]
    left
    rfl
  · rw [if_neg h1]
    by_cases h2 : (fl.filter fun l => !isHunkHeader l).length ≤ m
    · rw [if_pos h2]
      left
      rfl
    · rw [if_neg h2]
      right
      simp [List.append_assoc]

theorem truncateFileSection_no_meta (fl : List Line) (name : Line) (m : Nat)
    (hfl : ∀ l ∈ fl, isMeta l = false) :
    ∀ l ∈ truncateFileSection fl name m, isMeta l = false := by
  rcases truncateFileSection_eq fl name m with h | h <;> rw [h]
  · exact hfl
  · intro l hl
    simp only [List.mem_append, List.mem_cons, List.not_mem_nil, or_false] at hl
    rcases hl with h | h | h | (h | h | h) | h | h
    · exact hfl l (List.mem_of_mem_filter h)
    · exact hfl l (List.mem_of_mem_filter (List.mem_of_mem_take h))
    · rw [h]; exact isMeta_nil
    · rw [h]; exact isMeta_truncMsgHidden _ _
    · rw [h]; exact isMeta_truncMsgTotals _ _ _
    · rw [h]; exact isMeta_truncMsgHint
    · rw [h]; exact isMeta_nil
    · unfold jsSliceLast at h
      split at h
      · exact hfl l (List.mem_of_mem_filter h)
      · exact hfl l (List.mem_of_mem_filter (List.mem_of_mem_drop h))

theorem truncateFileSection_no_newline (fl : List Line) (name : Line) (m : Nat)
    (hfl : ∀ l ∈ fl, '\n' ∉ l) (hname : '\n' ∉ name) :
    ∀ l ∈ truncateFileSection fl name m, '\n' ∉ l := by
  rcases truncateFileSection_eq fl name m with h | h <;> rw [h]
  · exact hfl
  · intro l hl
    simp only [List.mem_append, List.mem_cons, List.not_mem_nil, or_false] at hl
    rcases hl with h | h | h | (h | h | h) | h | h
    · exact hfl l (List.mem_of_mem_filter h)
    · exact hfl l (List.mem_of_mem_filter (List.mem_of_mem_take h))
    · rw [h]; simp
    · rw [h]; exact no_newline_truncMsgHidden _ _ hname
    · rw [h]; exact no_newline_truncMsgTotals _ _ _
    · rw [h]; exact no_newline_truncMsgHint
    · rw [h]; simp
    · unfold jsSliceLast at h
      split at h
      · exact hfl l (List.mem_of_mem_filter h)
      · exact hfl l (List.mem_of_mem_filter (List.mem_of_mem_drop h))

theorem truncateFileSection_ne_nil (fl : List Line) (name : Line) (m : Nat)
    (hfl : fl ≠ []) : truncateFileSection fl name m ≠ [] := by
  rcases truncateFileSection_eq fl name m with h | h <;> rw [h]
  · exact hfl
  · simp

theorem truncLoop_invariant (m : Nat) :
    ∀ (ls : List Line) (st : TruncState),
    (∀ l ∈ st.currentFileLines, isMeta l = false ∧ '\n' ∉ l) →
    (∀ l ∈ st.result, '\n' ∉ l) →
    ('\n' ∉ st.currentFileName) →
    (∀ l ∈ ls, '\n' ∉ l) →
    ((ls.foldl (truncStep m) st).result.filter isMeta
        = st.result.filter isMeta ++ ls.filter isMeta)
      ∧ (∀ l ∈ (ls.foldl (truncStep m) st).currentFileLines, isMeta l = false ∧ '\n' ∉ l)
      ∧ (∀ l ∈ (ls.foldl (truncStep m) st).result, '\n' ∉ l)
      ∧ ('\n' ∉ (ls.foldl (truncStep m) st).currentFileName) := by
  intro ls
  induction ls with
  | nil => intro st hcur hres hname _; exact ⟨by simp, hcur, hres, hname⟩
  | cons l ls ih =>
    intro st hcur hres hname hls
    have hl : '\n' ∉ l := hls l (by simp)
    have hls2 : ∀ x ∈ ls, '\n' ∉ x := fun x hx => hls x (List.mem_cons_of_mem _ hx)
    rw [List.foldl_cons]
    by_cases hd : isDiffGitLine l = true
    · -- a new `diff --git ` header: flush, emit the header
      have hlmeta : isMeta l = true := by simp [isMeta, hd]
      have hstep : truncStep m st l =
          ⟨(if st.currentFileLines.length > 0 then
              st.result ++ truncateFileSection st.currentFileLines st.currentFileName m
            else st.result) ++ [l],
           [], (jsDiffGitMatch l).getD (str "unknown"), false⟩ := by
        unfold truncStep
        rw [if_pos hd]
      have htr : (truncateFileSection st.currentFileLines st.currentFileName m).filter
          isMeta = [] :=
        List.filter_eq_nil_iff.mpr (fun a ha => by
          simp [truncateFileSection_no_meta st.currentFileLines st.currentFileName m
            (fun x hx => (hcur x hx).1) a ha])
      have hflush_filter :
          ((if st.currentFileLines.length > 0 then
              st.result ++ truncateFileSection st.currentFileLines st.currentFileName m
            else st.result).filter isMeta) = st.result.filter isMeta := by
        split
        · rw [List.filter_append, htr, List.append_nil]
        · rfl
      have hflush_nl : ∀ x ∈ (if st.currentFileLines.length > 0 then
            st.result ++ truncateFileSection st.currentFileLines st.currentFileName m
          else st.result), '\n' ∉ x := by
        split
        · intro x hx
          rcases List.mem_append.mp hx with hx | hx
          · exact hres x hx
          · exact truncateFileSection_no_newline st.currentFileLines st.currentFileName m
              (fun y hy => (hcur y hy).2) hname x hx
        · exact hres
      have hname2 : '\n' ∉ (jsDiffGitMatch l).getD (str "unknown") := by
        cases hjm : jsDiffGitMatch l with
        | none => simp only [Option.getD_none]; decide
        | some v =>
          simp only [Option.getD_some]
          obtain ⟨w, hw⟩ := jsDiffGitMatch_suffix l v hjm
          intro hv
          exact hl (hw ▸ List.mem_append_right w hv)
      rw [hstep]
      obtain ⟨h1, h2, h3, h4⟩ := ih
        ⟨(if st.currentFileLines.length > 0 then
            st.result ++ truncateFileSection st.currentFileLines st.currentFileName m
          else st.result) ++ [l],
         [], (jsDiffGitMatch l).getD (str "unknown"), false⟩
        (by intro x hx; simp at hx)
        (by
          intro x hx
          rcases List.mem_append.mp hx with hx | hx
          · exact hflush_nl x hx
          · simp only [List.mem_singleton] at hx
            exact hx ▸ hl)
        hname2 hls2
      refine ⟨?_, h2, h3, h4⟩
      rw [h1]
      show (_ ++ [l]).filter isMeta ++ _ = _
      rw [List.filter_append, hflush_filter]
      simp [List.filter_cons, hlmeta, List.append_assoc]
    · -- not a header line
      by_cases hm2 : ((str "index ").isPrefixOf l || (str "+++").isPrefixOf l
          || (str "---").isPrefixOf l) = true
      · -- metadata line: emitted directly
        have hlmeta : isMeta l = true := by
          simp only [isMeta, Bool.or_assoc, Bool.or_eq_true] at hm2 ⊢
          exact Or.inr hm2
        have hstep : truncStep m st l = { st with result := st.result ++ [l] } := by
          unfold truncStep
          rw [if_neg (by simp [hd]), if_pos hm2]
        rw [hstep]
        obtain ⟨h1, h2, h3, h4⟩ := ih { st with result := st.result ++ [l] }
          hcur
          (by
            intro x hx
            rcases List.mem_append.mp hx with hx | hx
            · exact hres x hx
            · simp only [List.mem_singleton] at hx
              exact hx ▸ hl)
          hname hls2
        refine ⟨?_, h2, h3, h4⟩
        rw [h1]
        show (st.result ++ [l]).filter isMeta ++ _ = _
        rw [List.filter_append]
        simp [List.filter_cons, hlmeta, List.append_assoc]
      · -- hunk header, buffered content, or passthrough: never metadata
        have hm2f : ((str "index ").isPrefixOf l || (str "+++").isPrefixOf l
            || (str "---").isPrefixOf l) = false := by
          cases hx : ((str "index ").isPrefixOf l || (str "+++").isPrefixOf l
              || (str "---").isPrefixOf l)
          · rfl
          · exact absurd hx hm2
        have hdf : isDiffGitLine l = false := by
          cases hx : isDiffGitLine l
          · rfl
          · exact absurd hx hd
        have hlmeta : isMeta l = false := by
          simp only [isMeta, hdf, Bool.false_or]
          exact hm2f
        by_cases hh : isHunkHeader l = true
        · have hstep : truncStep m st l =
              { st with inFileContent := true,
                        currentFileLines := st.currentFileLines ++ [l] } := by
            unfold truncStep
            rw [if_neg (by simp [hd]), if_neg (by simp [hm2]), if_pos hh]
          rw [hstep]
          obtain ⟨h1, h2, h3, h4⟩ := ih
            { st with inFileContent := true,
                      currentFileLines := st.currentFileLines ++ [l] }
            (by
              intro x hx
              rcases List.mem_append.mp hx with hx | hx
              · exact hcur x hx
              · simp only [List.mem_singleton] at hx
                exact hx ▸ ⟨hlmeta, hl⟩)
            hres hname hls2
          refine ⟨?_, h2, h3, h4⟩
          rw [h1]
          simp [List.filter_cons, hlmeta]
        · by_cases hc : st.inFileContent = true
          · have hstep : truncStep m st l =
                { st with currentFileLines := st.currentFileLines ++ [l] } := by
              unfold truncStep
              rw [if_neg (by simp [hd]), if_neg (by simp [hm2]), if_neg (by simp [hh]),
                if_pos hc]
            rw [hstep]
            obtain ⟨h1, h2, h3, h4⟩ := ih
              { st with currentFileLines := st.currentFileLines ++ [l] }
              (by
                intro x hx
                rcases List.mem_append.mp hx with hx | hx
                · exact hcur x hx
                · simp only [List.mem_singleton] at hx
                  exact hx ▸ ⟨hlmeta, hl⟩)
              hres hname hls2
            refine ⟨?_, h2, h3, h4⟩
            rw [h1]
            simp [List.filter_cons, hlmeta]
          · have hstep : truncStep m st l =
                { st with result := st.result ++ [l] } := by
              unfold truncStep
              rw [if_neg (by simp [hd]), if_neg (by simp [hm2]), if_neg (by simp [hh]),
                if_neg (by simp [hc])]
            rw [hstep]
            obtain ⟨h1, h2, h3, h4⟩ := ih { st with result := st.result ++ [l] }
              hcur
              (by
                intro x hx
                rcases List.mem_append.mp hx with hx | hx
                · exact hres x hx
                · simp only [List.mem_singleton] at hx
                  exact hx ▸ hl)
              hname hls2
            refine ⟨?_, h2, h3, h4⟩
            rw [h1]
            show (st.result ++ [l]).filter isMeta ++ _ = _
            rw [List.filter_append]
            simp [List.filter_cons, hlmeta, List.append_assoc]

theorem truncStep_nonempty (m : Nat) (st : TruncState) (l : Line) :
    1 ≤ (truncStep m st l).result.length + (truncStep m st l).currentFileLines.length := by
  unfold truncStep
  split
  · simp
  · split
    · simp
      omega
    · split
      · simp
        omega
      · split
        · simp
          omega
        · simp
          omega

theorem truncLoop_nonempty (m : Nat) :
    ∀ (ls : List Line) (st : TruncState), ls ≠ [] →
    1 ≤ (ls.foldl (truncStep m) st).result.length
        + (ls.foldl (truncStep m) st).currentFileLines.length := by
  intro ls
  induction ls with
  | nil => intro st h; exact absurd rfl h
  | cons l ls ih =>
    intro st _
    rw [List.foldl_cons]
    by_cases hls : ls = []
    · subst hls
      simpa using truncStep_nonempty m st l
    · exact ih (truncStep m st l) hls

/-- Claim C10: the per-file truncator never drops, duplicates or reorders
file metadata lines: for every input text and every budget, the sequence of
lines starting with `diff --git `, `index `, `+++` or `---` in the output
equals that sequence in the input. -/
theorem c10_metadata_preserved (d : Line) (m : Int) :
    (splitNl (truncateDiff d m)).filter isMeta = (splitNl d).filter isMeta := by
  unfold truncateDiff
  by_cases hm : m ≤ 0
  · rw [if_pos hm]
  · rw [if_neg hm]
    obtain ⟨h1, h2, h3, h4⟩ := truncLoop_invariant m.toNat (splitNl d) ⟨[], [], [], false⟩
      (by intro x hx; simp at hx) (by intro x hx; simp at hx) (by simp)
      (splitNl_no_newline d)
    have key : ∀ res2 : List Line,
        res2.filter isMeta = (splitNl d).filter isMeta → res2 ≠ [] →
        (∀ l ∈ res2, '\n' ∉ l) →
        (splitNl (joinNl res2)).filter isMeta = (splitNl d).filter isMeta := by
      intro res2 hf hne hnl
      rw [splitNl_joinNl res2 hne hnl, hf]
    have htr : ((truncateFileSection
          ((splitNl d).foldl (truncStep m.toNat) ⟨[], [], [], false⟩).currentFileLines
          ((splitNl d).foldl (truncStep m.toNat) ⟨[], [], [], false⟩).currentFileName
          m.toNat).filter isMeta) = [] :=
      List.filter_eq_nil_iff.mpr (fun a ha => by
        simp [truncateFileSection_no_meta _ _ m.toNat (fun x hx => (h2 x hx).1) a ha])
    refine key _ ?_ ?_ ?_
    · split
      · rw [List.filter_append, htr, List.append_nil]
        simpa using h1
      · simpa using h1
    · split
      · rename_i hcur
        intro hq
        rcases List.append_eq_nil.mp hq with ⟨-, h2n⟩
        exact truncateFileSection_ne_nil _ _ m.toNat
          (by intro hnil; rw [hnil] at hcur; simp at hcur) h2n
      · rename_i hcur
        have := truncLoop_nonempty m.toNat (splitNl d) ⟨[], [], [], false⟩ (splitNl_ne_nil d)
        intro hq
        rw [hq] at this
        simp only [List.length_nil, Nat.zero_add] at this
        simp only [not_lt, Nat.lt_iff_add_one_le] at hcur
        omega
    · split
      · intro x hx
        rcases List.mem_append.mp hx with hx | hx
        · exact h3 x hx
        · exact truncateFileSection_no_newline _ _ m.toNat
            (fun y hy => (h2 y hy).2) h4 x hx
      · exact h3
